import Mathlib

/-!
Verification of the patrol validator core: event-store deduplication and
hashing, structural graph validation, ownership-continuity verification,
and the two scoring policies. Definitions are shallow embeddings of the
Python sources.
-/

namespace Patrol

/-! ### SHA-256 (hashlib.sha256), words as `Nat` reduced mod 2^32 -/

def w32 (n : Nat) : Nat := n % 4294967296

def rotr32 (x n : Nat) : Nat := w32 ((x >>> n) ||| (x <<< (32 - n)))

def sha256K : List Nat := [
  1116352408, 1899447441, 3049323471, 3921009573, 961987163,
  1508970993, 2453635748, 2870763221, 3624381080, 310598401,
  607225278, 1426881987, 1925078388, 2162078206, 2614888103,
  3248222580, 3835390401, 4022224774, 264347078, 604807628,
  770255983, 1249150122, 1555081692, 1996064986, 2554220882,
  2821834349, 2952996808, 3210313671, 3336571891, 3584528711,
  113926993, 338241895, 666307205, 773529912, 1294757372,
  1396182291, 1695183700, 1986661051, 2177026350, 2456956037,
  2730485921, 2820302411, 3259730800, 3345764771, 3516065817,
  3600352804, 4094571909, 275423344, 430227734, 506948616,
  659060556, 883997877, 958139571, 1322822218, 1537002063,
  1747873779, 1955562222, 2024104815, 2227730452, 2361852424,
  2428436474, 2756734187, 3204031479, 3329325298]

def sha256Init : List Nat :=
  [1779033703, 3144134277, 1013904242, 2773480762,
   1359893119, 2600822924, 528734635, 1541459225]

/-- Pad a byte string per FIPS 180-4: append 0x80, zeros, and the 64-bit
bit length, so the total length is a multiple of 64 bytes. -/
def sha256Pad (msg : List Nat) : List Nat :=
  let len := msg.length
  let bitLen := len * 8
  let zeros := (119 - len % 64) % 64
  msg ++ [0x80] ++ List.replicate zeros 0 ++
    [(bitLen >>> 56) % 256, (bitLen >>> 48) % 256, (bitLen >>> 40) % 256, (bitLen >>> 32) % 256,
     (bitLen >>> 24) % 256, (bitLen >>> 16) % 256, (bitLen >>> 8) % 256, bitLen % 256]

/-- Big-endian 32-bit words from a byte list. -/
def bytesToWords : List Nat → List Nat
  | b0 :: b1 :: b2 :: b3 :: rest => (((b0 * 256 + b1) * 256 + b2) * 256 + b3) :: bytesToWords rest
  | _ => []

/-- One compression round. State is the 8-tuple (a,b,c,d,e,f,g,h). -/
def sha256Round (st : Nat × Nat × Nat × Nat × Nat × Nat × Nat × Nat) (k wi : Nat) :
    Nat × Nat × Nat × Nat × Nat × Nat × Nat × Nat :=
  let (a, b, c, d, e, f, g, h) := st
  let s1 := (rotr32 e 6) ^^^ (rotr32 e 11) ^^^ (rotr32 e 25)
  let ch := (e &&& f) ^^^ ((e ^^^ 4294967295) &&& g)
  let t1 := w32 (h + s1 + ch + k + wi)
  let s0 := (rotr32 a 2) ^^^ (rotr32 a 13) ^^^ (rotr32 a 22)
  let mj := (a &&& b) ^^^ (a &&& c) ^^^ (b &&& c)
  let t2 := w32 (s0 + mj)
  (w32 (t1 + t2), a, b, c, w32 (d + t1), e, f, g)

/-- Extend the 16 block words to the 64-entry message schedule. -/
def sha256Schedule (block : List Nat) : List Nat :=
  let rec go (w : List Nat) (i : Nat) : List Nat :=
    match i with
    | 0 => w
    | n + 1 =>
      let j := w.length
      let wm15 := w.getD (j - 15) 0
      let wm2 := w.getD (j - 2) 0
      let wm16 := w.getD (j - 16) 0
      let wm7 := w.getD (j - 7) 0
      let s0 := (rotr32 wm15 7) ^^^ (rotr32 wm15 18) ^^^ (wm15 >>> 3)
      let s1 := (rotr32 wm2 17) ^^^ (rotr32 wm2 19) ^^^ (wm2 >>> 10)
      go (w ++ [w32 (wm16 + s0 + wm7 + s1)]) n
  go block 48

/-- Compress one 64-byte block into the running hash state. -/
def sha256Compress (h : List Nat) (block : List Nat) : List Nat :=
  let w := sha256Schedule (bytesToWords block)
  let st0 := (h.getD 0 0, h.getD 1 0, h.getD 2 0, h.getD 3 0,
              h.getD 4 0, h.getD 5 0, h.getD 6 0, h.getD 7 0)
  let st := (List.zip sha256K w).foldl (fun s kw => sha256Round s kw.1 kw.2) st0
  let (a, b, c, d, e, f, g, hh) := st
  [w32 (h.getD 0 0 + a), w32 (h.getD 1 0 + b), w32 (h.getD 2 0 + c), w32 (h.getD 3 0 + d),
   w32 (h.getD 4 0 + e), w32 (h.getD 5 0 + f), w32 (h.getD 6 0 + g), w32 (h.getD 7 0 + hh)]

def chunks64Go : Nat → List Nat → List (List Nat)
  | 0, _ => []
  | _, [] => []
  | fuel + 1, l => l.take 64 :: chunks64Go fuel (l.drop 64)

def chunks64 (l : List Nat) : List (List Nat) := chunks64Go l.length l

def sha256Words (msg : List Nat) : List Nat :=
  (chunks64 (sha256Pad msg)).foldl sha256Compress sha256Init

def hexDigit (n : Nat) : Char :=
  if n < 10 then Char.ofNat (48 + n) else Char.ofNat (87 + n)

def byteToHex (b : Nat) : List Char := [hexDigit (b / 16), hexDigit (b % 16)]

def wordToHex (wd : Nat) : List Char :=
  byteToHex (wd / 16777216 % 256) ++ byteToHex (wd / 65536 % 256) ++
  byteToHex (wd / 256 % 256) ++ byteToHex (wd % 256)

/-- Hex digest of a byte string, as `hashlib.sha256(...).hexdigest()`. -/
def sha256Hex (msg : List Nat) : String :=
  ⟨(sha256Words msg).foldr (fun wd acc => wordToHex wd ++ acc) []⟩

/-! ### Python values, dicts and `json.dumps(..., sort_keys=True, default=str)` -/

/-- A Python value as it can occur in an event dict. `other` stands for a
non-JSON-primitive (truthy) object together with its `str()` representation,
which `json.dumps(default=str)` serializes as a JSON string. -/
inductive JValue where
  | str (s : String)
  | int (n : Int)
  | null
  | other (srepr : String)
deriving DecidableEq, Repr

/-- Python truthiness of a `JValue` (empty string, zero and `None` are falsy). -/
def JValue.truthy : JValue → Bool
  | .str s => s ≠ ""
  | .int n => n ≠ 0
  | .null => false
  | .other _ => true

/-- `a or b` in Python: `a` when truthy, else `b`. -/
def pyOr (a b : JValue) : JValue := if a.truthy then a else b

/-- An event dict: association list from keys to values. -/
abbrev Event : Type := List (String × JValue)

/-- `event.get(k)`: the value under `k`, or Python `None` when absent. -/
def eget (e : Event) (k : String) : JValue := ((List.lookup k e).getD .null)

def fourHexChars (n : Nat) : List Char :=
  [hexDigit (n / 4096 % 16), hexDigit (n / 256 % 16), hexDigit (n / 16 % 16), hexDigit (n % 16)]

/-- Escape one character the way `json.dumps` (with `ensure_ascii=True`)
does: short escapes for the two-character sequences, `\uXXXX` (with
surrogate pairs beyond the BMP) for every character outside `0x20..0x7e`. -/
def escapeChar (c : Char) : List Char :=
  let n := c.toNat
  if n = 34 then ['\\', '"']
  else if n = 92 then ['\\', '\\']
  else if n = 10 then ['\\', 'n']
  else if n = 13 then ['\\', 'r']
  else if n = 9 then ['\\', 't']
  else if n = 8 then ['\\', 'b']
  else if n = 12 then ['\\', 'f']
  else if n < 32 || n ≥ 127 then
    if n < 65536 then '\\' :: 'u' :: fourHexChars n
    else
      ('\\' :: 'u' :: fourHexChars (55296 + (n - 65536) / 1024)) ++
      ('\\' :: 'u' :: fourHexChars (56320 + (n - 65536) % 1024))
  else [c]

def jsonQuote (s : String) : String :=
  ⟨'"' :: (s.data.foldr (fun c acc => escapeChar c ++ acc) ['"'])⟩

/-- Serialize one value as `json.dumps` does (`default=str` turns a
non-primitive into its string representation first). -/
def jsonValue : JValue → String
  | .str s => jsonQuote s
  | .int n => toString n
  | .null => "null"
  | .other r => jsonQuote r

/-- Code-point lexicographic order on character lists: Python's `<` on
strings. -/
def charListLt : List Char → List Char → Bool
  | [], [] => false
  | [], _ :: _ => true
  | _ :: _, [] => false
  | c :: cs, d :: ds =>
    if c.toNat < d.toNat then true
    else if d.toNat < c.toNat then false
    else charListLt cs ds

def strLt (a b : String) : Bool := charListLt a.data b.data

/-- Insert an entry into a key-sorted association list (insertion sort step);
string comparison is code-point lexicographic, as in Python. -/
def insertSorted (p : String × JValue) : List (String × JValue) → List (String × JValue)
  | [] => [p]
  | q :: rest => if strLt p.1 q.1 then p :: q :: rest else q :: insertSorted p rest

def sortByKey : List (String × JValue) → List (String × JValue)
  | [] => []
  | p :: rest => insertSorted p (sortByKey rest)

/-- Render an association list as a JSON object in the given order, with
`json.dumps`'s default separators. -/
def jsonRender (fields : List (String × JValue)) : String :=
  let entries := fields.map (fun p => jsonQuote p.1 ++ ": " ++ jsonValue p.2)
  "\x7b" ++ String.intercalate ", " entries ++ "\x7d"

/-- `json.dumps(fields, sort_keys=True, default=str)`. -/
def json_dumps_sorted (fields : List (String × JValue)) : String :=
  jsonRender (sortByKey fields)

/-- UTF-8 bytes of one character. -/
def utf8Bytes (c : Char) : List Nat :=
  let n := c.toNat
  if n < 128 then [n]
  else if n < 2048 then [192 + n / 64, 128 + n % 64]
  else if n < 65536 then [224 + n / 4096, 128 + n / 64 % 64, 128 + n % 64]
  else [240 + n / 262144, 128 + n / 4096 % 64, 128 + n / 64 % 64, 128 + n % 64]

/-- `s.encode()`: UTF-8 bytes of a string. -/
def strBytes (s : String) : List Nat :=
  s.data.foldr (fun c acc => utf8Bytes c ++ acc) []

/-! ### `create_event_hash` (event_store_repository.py) -/

/-- The `hash_fields` dict built by `create_event_hash`, in insertion order:
the six common fields (with `edge_category` falling back to key `category`
and `edge_type` falling back to key `type` via Python `or`), plus the four
staking fields when the raw `edge_category` entry equals `"staking"`. -/
def hash_fields (e : Event) : List (String × JValue) :=
  let base := [
    ("coldkey_source", eget e "coldkey_source"),
    ("coldkey_destination", eget e "coldkey_destination"),
    ("edge_category", pyOr (eget e "edge_category") (eget e "category")),
    ("edge_type", pyOr (eget e "edge_type") (eget e "type")),
    ("block_number", eget e "block_number"),
    ("rao_amount", eget e "rao_amount")]
  if eget e "edge_category" = JValue.str "staking" then
    base ++ [
      ("destination_net_uid", eget e "destination_net_uid"),
      ("source_net_uid", eget e "source_net_uid"),
      ("delegate_hotkey_source", eget e "delegate_hotkey_source"),
      ("delegate_hotkey_destination", eget e "delegate_hotkey_destination")]
  else base

/-- The string fed to SHA-256 by `create_event_hash`. -/
def event_hash_string (e : Event) : String := json_dumps_sorted (hash_fields e)

/-- `create_event_hash(event)`: hex SHA-256 of the canonical JSON of the
identity fields. -/
def create_event_hash (e : Event) : String :=
  sha256Hex (strBytes (event_hash_string e))

/-! ### `_ChainEvent` rows and `DatabaseEventStoreRepository.add_events` -/

/-- One row of the `event_store` table (`created_at` carries wall-clock
time and is not modelled; no claim mentions it). -/
structure ChainEventRow where
  edge_hash : String
  coldkey_source : JValue
  coldkey_destination : JValue
  edge_category : JValue
  edge_type : JValue
  coldkey_owner : JValue
  block_number : JValue
  rao_amount : JValue
  destination_net_uid : JValue
  source_net_uid : JValue
  alpha_amount : JValue
  delegate_hotkey_source : JValue
  delegate_hotkey_destination : JValue
deriving DecidableEq, Repr

/-- `event[k]`: direct dict indexing, `KeyError` (here `none`) when absent. -/
def dictIndex (e : Event) (k : String) : Option JValue := List.lookup k e

/-- `_ChainEvent.from_event`: builds the row, computing the primary key
with `create_event_hash`; raises `KeyError` (`none`) when one of the six
directly-indexed keys is absent. -/
def from_event (e : Event) : Option ChainEventRow := do
  let cs ← dictIndex e "coldkey_source"
  let cd ← dictIndex e "coldkey_destination"
  let cat ← dictIndex e "edge_category"
  let ty ← dictIndex e "edge_type"
  let bn ← dictIndex e "block_number"
  let rao ← dictIndex e "rao_amount"
  pure {
    edge_hash := create_event_hash e
    coldkey_source := cs
    coldkey_destination := cd
    edge_category := cat
    edge_type := ty
    coldkey_owner := eget e "coldkey_owner"
    block_number := bn
    rao_amount := rao
    destination_net_uid := eget e "destination_net_uid"
    source_net_uid := eget e "source_net_uid"
    alpha_amount := eget e "alpha_amount"
    delegate_hotkey_source := eget e "delegate_hotkey_source"
    delegate_hotkey_destination := eget e "delegate_hotkey_destination" }

/-- The database: the rows of `event_store` in insertion order. The engine
signals `IntegrityError` exactly on an `edge_hash` primary-key collision. -/
abbrev Store : Type := List ChainEventRow

/-- Does a row with this primary key exist? -/
def hashPresent (db : Store) (h : String) : Bool :=
  db.any (fun r => r.edge_hash == h)

/-- Number of stored rows carrying this primary key. -/
def countRows (db : Store) (h : String) : Nat :=
  (db.filter (fun r => r.edge_hash == h)).length

/-- Pairwise distinctness of a list of primary keys. -/
def distinctHashes : List String → Bool
  | [] => true
  | h :: t => (!t.any (fun x => x == h)) && distinctHashes t

/-- The batch transaction (`add_all` + `commit`) succeeds iff no row
collides with the store and no two batch rows share a primary key. -/
def bulkOk (db : Store) (rows : List ChainEventRow) : Bool :=
  rows.all (fun r => !hashPresent db r.edge_hash) &&
    distinctHashes (rows.map (fun r => r.edge_hash))

/-- The per-item fallback loop: each event in its own transaction; an
`IntegrityError` rolls that event back and bumps the duplicate counter. -/
def fallbackLoop (db : Store) : List ChainEventRow → Store × Nat
  | [] => (db, 0)
  | r :: rest =>
    if hashPresent db r.edge_hash then
      let p := fallbackLoop db rest
      (p.1, p.2 + 1)
    else
      fallbackLoop (db ++ [r]) rest

/-- What one call to `add_events` leaves behind. -/
structure AddEventsOutcome where
  /-- The table contents after the call. -/
  store : Store
  /-- Final value of the local `duplicate_count` variable (only logged). -/
  duplicate_count : Nat
  /-- The Python return value: `None` on every path, despite the
  `List[str]` annotation. -/
  returned : Option (Nat × Nat)
deriving Repr

/-- `DatabaseEventStoreRepository.add_events`. Converts every event with
`from_event` (a `KeyError` escapes), then attempts one batch transaction
(early `return`, i.e. `None`, on success), falling back to per-item
transactions. In this model the engine fails only on primary-key
collisions; the generic `except Exception` arms are therefore never hit. -/
def add_events (db : Store) (eventData : List Event) : Except String AddEventsOutcome :=
  match eventData.mapM from_event with
  | none => .error "KeyError"
  | some rows =>
    if bulkOk db rows then
      .ok ⟨db ++ rows, 0, none⟩
    else
      let p := fallbackLoop db rows
      .ok ⟨p.1, p.2, none⟩

/-! ### Concrete sample events and rows, used in witnesses -/

/-- A minimal transfer event with the given block number. -/
def sampleTransferAt (bn : Int) : Event :=
  [("coldkey_source", .str "a"), ("coldkey_destination", .str "b"),
   ("edge_category", .str "t"), ("edge_type", .str "x"),
   ("block_number", .int bn), ("rao_amount", .int 2)]

def sampleTransfer : Event := sampleTransferAt 1

/-- `sampleTransfer` extended with a field that is not part of the hash
identity: the same logical event. -/
def sampleOwner : Event := sampleTransfer ++ [("coldkey_owner", JValue.str "o")]

def sampleStake : Event :=
  [("coldkey_source", .str "a"), ("coldkey_destination", .str "b"),
   ("edge_category", .str "staking"), ("edge_type", .str "x"),
   ("block_number", .int 1), ("rao_amount", .int 2),
   ("destination_net_uid", .int 3), ("source_net_uid", .null),
   ("delegate_hotkey_source", .str "d"), ("delegate_hotkey_destination", .str "e")]

/-- The row `from_event` builds for `sampleTransferAt bn`, with the primary
key given explicitly. -/
def sampleRowAt (bn : Int) (hash : String) : ChainEventRow :=
  { edge_hash := hash
    coldkey_source := .str "a", coldkey_destination := .str "b"
    edge_category := .str "t", edge_type := .str "x"
    coldkey_owner := .null, block_number := .int bn, rao_amount := .int 2
    destination_net_uid := .null, source_net_uid := .null, alpha_amount := .null
    delegate_hotkey_source := .null, delegate_hotkey_destination := .null }

def sampleHash : String := "c098444d45a0a0880e2cb476ea471a6dcd2867250f5548a149aa1e3d05163d8b"

def sampleRow : ChainEventRow := sampleRowAt 1 sampleHash

def sampleRowOwner : ChainEventRow := { sampleRow with coldkey_owner := .str "o" }

def sampleRow10 : ChainEventRow :=
  sampleRowAt 10 "d47e663bdcf87ae558ca7c4747a15a9a4eb124314de765d911728076a08a498b"

def sampleRow11 : ChainEventRow :=
  sampleRowAt 11 "38ec83d7117fd8e8ea14669d5d007cdc2e93ad6c3aa81764f5244f3b0b0338e9"

/-- Like `sampleTransfer`, but the edge type is supplied only under the
legacy key `type`; the identity field `edge_type` itself is absent. -/
def typeFallbackEvent : Event :=
  [("coldkey_source", .str "a"), ("coldkey_destination", .str "b"),
   ("edge_category", .str "t"), ("type", .str "x"),
   ("block_number", .int 1), ("rao_amount", .int 2)]

/-- Every key `create_event_hash` reads: the ten named identity fields of
the claim plus the two legacy fallback keys. -/
def relevantKeys : List String :=
  ["coldkey_source", "coldkey_destination", "edge_category", "category",
   "edge_type", "type", "block_number", "rao_amount",
   "destination_net_uid", "source_net_uid",
   "delegate_hotkey_source", "delegate_hotkey_destination"]

/-- Modelled from the spec's words (§6 "Hash function, bit-exact"): the
mapping of exactly the six common identity fields, plus the four staking
fields when `edge_category == "staking"`, with no fallback keys. Used for
the refinement comparison with `hash_fields`. -/
def spec_hash_fields (e : Event) : List (String × JValue) :=
  let base := [
    ("coldkey_source", eget e "coldkey_source"),
    ("coldkey_destination", eget e "coldkey_destination"),
    ("edge_category", eget e "edge_category"),
    ("edge_type", eget e "edge_type"),
    ("block_number", eget e "block_number"),
    ("rao_amount", eget e "rao_amount")]
  if eget e "edge_category" = JValue.str "staking" then
    base ++ [
      ("destination_net_uid", eget e "destination_net_uid"),
      ("source_net_uid", eget e "source_net_uid"),
      ("delegate_hotkey_source", eget e "delegate_hotkey_source"),
      ("delegate_hotkey_destination", eget e "delegate_hotkey_destination")]
  else base

/-- The hash as the spec describes it: hex SHA-256 of the sorted-keys JSON
of `spec_hash_fields`. -/
def spec_event_hash (e : Event) : String :=
  sha256Hex (strBytes (json_dumps_sorted (spec_hash_fields e)))

/-! ### `HotkeyOwnershipValidator._validate_graph`
(hotkey_ownership_challenge.py) -/

/-- One edge of a submitted subgraph; the evidence carries the effective
block number. -/
structure GraphEdge where
  coldkey_source : String
  coldkey_destination : String
  effective_block_number : Int
deriving DecidableEq, Repr

/-- A submitted subgraph: node ids and edges. -/
structure Subgraph where
  nodes : List String
  edges : List GraphEdge
deriving DecidableEq, Repr

/-- The distinct `ValidationException`s `_validate_graph` can raise. -/
inductive GraphError where
  | missingGraph
  | zeroNodes
  | duplicateNode (id : String)
  | selfLoop
  | sourceNotNode (id : String)
  | destinationNotNode (id : String)
  | duplicateEdge (src dst : String) (block : Int)
  | notConnected
deriving DecidableEq, Repr

/-- The node loop: add each node, raising on a duplicate. `seen` is the
set of nodes already added to the `networkx` graph. -/
def checkNodes (seen : List String) : List String → Option GraphError
  | [] => none
  | n :: rest =>
    if seen.contains n then some (.duplicateNode n)
    else checkNodes (n :: seen) rest

/-- The identity triple by which duplicate edges are detected. -/
def edgeTriple (e : GraphEdge) : String × String × Int :=
  (e.coldkey_source, e.coldkey_destination, e.effective_block_number)

/-- The edge loop: per edge, in order — self-loop, source declared,
destination declared, duplicate `(source, destination, block)` triple
among the edges already added. -/
def checkEdges (nodes : List String) (added : List (String × String × Int)) :
    List GraphEdge → Option GraphError
  | [] => none
  | e :: rest =>
    if e.coldkey_source == e.coldkey_destination then some .selfLoop
    else if !nodes.contains e.coldkey_source then
      some (.sourceNotNode e.coldkey_source)
    else if !nodes.contains e.coldkey_destination then
      some (.destinationNotNode e.coldkey_destination)
    else if added.contains (edgeTriple e) then
      some (.duplicateEdge e.coldkey_source e.coldkey_destination
        e.effective_block_number)
    else checkEdges nodes (edgeTriple e :: added) rest

/-- Undirected adjacency through some edge, as a Bool. -/
def adjacentB (edges : List GraphEdge) (u v : String) : Bool :=
  edges.any (fun e =>
    (e.coldkey_source == u && e.coldkey_destination == v) ||
    (e.coldkey_source == v && e.coldkey_destination == u))

/-- One breadth-first expansion: add every declared node adjacent to the
visited set. -/
def expandStep (edges : List GraphEdge) (nodes : List String)
    (vis : List String) : List String :=
  vis ++ nodes.filter (fun n =>
    !vis.contains n && vis.any (fun v => adjacentB edges v n))

/-- Iterated expansion. -/
def reachList (edges : List GraphEdge) (nodes : List String) :
    Nat → List String → List String
  | 0, vis => vis
  | fuel + 1, vis => reachList edges nodes fuel (expandStep edges nodes vis)

/-- `nx.is_weakly_connected`: every declared node is reachable from the
first one, edge direction ignored. (On the empty graph `networkx` raises,
but that path is unreachable: the zero-nodes rule fires first.) -/
def is_weakly_connected (nodes : List String) (edges : List GraphEdge) : Bool :=
  match nodes with
  | [] => true
  | n0 :: _ => nodes.all (fun n => (reachList edges nodes nodes.length [n0]).contains n)

/-- `_validate_graph`: missing graph, zero nodes, the node loop, the edge
loop, then weak connectivity. -/
def validate_graph : Option Subgraph → Except GraphError Unit
  | none => .error .missingGraph
  | some g =>
    if g.nodes.isEmpty then .error .zeroNodes
    else match checkNodes [] g.nodes with
    | some err => .error err
    | none =>
      match checkEdges g.nodes [] g.edges with
      | some err => .error err
      | none =>
        if is_weakly_connected g.nodes g.edges then .ok ()
        else .error .notConnected

/-- Undirected adjacency as a proposition. -/
def Adjacent (edges : List GraphEdge) (u v : String) : Prop :=
  ∃ e ∈ edges,
    (e.coldkey_source = u ∧ e.coldkey_destination = v) ∨
    (e.coldkey_source = v ∧ e.coldkey_destination = u)

/-- One undirected step between declared nodes. -/
def GStep (edges : List GraphEdge) (nodes : List String) (u v : String) : Prop :=
  u ∈ nodes ∧ v ∈ nodes ∧ Adjacent edges u v

/-- Weak connectivity, declaratively: any two declared nodes are linked by
a chain of undirected edges through declared nodes. -/
def WeaklyConnected (nodes : List String) (edges : List GraphEdge) : Prop :=
  ∀ u ∈ nodes, ∀ v ∈ nodes, Relation.ReflTransGen (GStep edges nodes) u v

/-- The structural conditions under which `_validate_graph` accepts. -/
def GraphOkConditions (g : Subgraph) : Prop :=
  g.nodes ≠ [] ∧ g.nodes.Nodup ∧
  (∀ e ∈ g.edges, e.coldkey_source ≠ e.coldkey_destination ∧
    e.coldkey_source ∈ g.nodes ∧ e.coldkey_destination ∈ g.nodes) ∧
  (g.edges.map edgeTriple).Nodup ∧
  WeaklyConnected g.nodes g.edges

/-! ### Ownership-continuity checks -/

/-- `Constants.LOWER_BLOCK_LIMIT`. -/
def LOWER_BLOCK_LIMIT : Int := 3014341

/-- How an ownership check can fail: an exception escaping the chain
reader itself, or one of the three `ValidationException`s with their
payloads. -/
inductive OwnershipError (E : Type) where
  | chainFailure (e : E)
  | startOwnerMissing (owner : String)
  | endOwnerMissing (owner : String)
  | ownerMismatch (expected actual : String) (block : Int)
deriving DecidableEq, Repr

/-- `_validate_start_end_ownership`: query the owner at
`LOWER_BLOCK_LIMIT` and at `max_block_number`; both must be among the
submitted nodes. `owner` is `chain_reader.get_hotkey_owner` with the
target hotkey fixed; a raised exception is an `Except.error`. -/
def validate_start_end_ownership {E : Type} (owner : Int → Except E String)
    (nodes : List String) (max_block_number : Int) :
    Except (OwnershipError E) Unit :=
  match owner LOWER_BLOCK_LIMIT with
  | .error e => .error (.chainFailure e)
  | .ok start_owner =>
    match owner max_block_number with
    | .error e => .error (.chainFailure e)
    | .ok end_owner =>
      if !nodes.contains start_owner then
        .error (.startOwnerMissing start_owner)
      else if !nodes.contains end_owner then
        .error (.endOwnerMissing end_owner)
      else .ok ()

/-- The inner `chain_validation` coroutine: the actual owner at
`block` must equal the expected coldkey. -/
def chain_validation {E : Type} (owner : Int → Except E String)
    (block : Int) (expected : String) : Except (OwnershipError E) Unit :=
  match owner block with
  | .error e => .error (.chainFailure e)
  | .ok actual =>
    if actual ≠ expected then .error (.ownerMismatch expected actual block)
    else .ok ()

/-- `_validate_edges`: for each edge, the owner at `block - 1` must be the
edge source and the owner at `block + 1` the edge destination. The
queries run under `asyncio.gather`, which fails as soon as any fails;
this sequential model agrees with it whenever at most one check fails. -/
def validate_edges {E : Type} (owner : Int → Except E String) :
    List GraphEdge → Except (OwnershipError E) Unit
  | [] => .ok ()
  | e :: rest => do
    chain_validation owner (e.effective_block_number - 1) e.coldkey_source
    chain_validation owner (e.effective_block_number + 1) e.coldkey_destination
    validate_edges owner rest

/-- `HotkeyOwnershipValidator.validate`, after the structural step:
boundary ownership, then the per-edge checks. -/
def verify_ownership {E : Type} (owner : Int → Except E String)
    (nodes : List String) (edges : List GraphEdge)
    (max_block_number : Int) : Except (OwnershipError E) Unit := do
  validate_start_end_ownership owner nodes max_block_number
  validate_edges owner edges

/-- A concrete ground-truth oracle for witnesses: `n1` owns the hotkey up
to block 9, `n2` from block 11 on; blocks outside the sampled set fail. -/
def sampleOwnerFn : Int → Except String String := fun b =>
  if b = LOWER_BLOCK_LIMIT then .ok "n1"
  else if b = 9 then .ok "n1"
  else if b = 11 then .ok "n2"
  else if b = 20 then .ok "n2"
  else .error "no sample"

/-- Like `sampleOwnerFn` but with an unexpected owner at block 9. -/
def sampleOwnerFnBad : Int → Except String String := fun b =>
  if b = 9 then .ok "zz" else sampleOwnerFn b

/-! ### Scoring: MinerScore and the two policies -/

inductive TaskType where
  | HOTKEY_OWNERSHIP
  | COLDKEY_SEARCH
  | PREDICT_ALPHA_SELL
deriving DecidableEq, Repr

/-- One persisted MinerScore row, parametric in the numeric type: exact
rationals for the executable pass/fail policy, reals for the analytic
volume policy. `id`, `batch_id` and `created_at` carry uuid/wall-clock
values and are not modelled; no claim mentions them. -/
structure MinerScore (α : Type) where
  uid : Nat
  hotkey : String
  coldkey : String
  overall_score : α
  responsiveness_score : α
  overall_score_moving_average : α
  response_time_seconds : α
  volume : Int
  volume_score : α
  novelty_score : Option α
  validation_passed : Bool
  error_message : Option String
  task_type : TaskType
deriving DecidableEq, Repr

/-! #### Pass/fail policy: `HotkeyOwnershipChallenge`
(hotkey_ownership_challenge.py) -/

/-- `HotkeyOwnershipChallenge._moving_average` (denominator fixed at 12):
up to 11 most-recent prior scores plus the new one, first 12 taken — that
is all of them — and averaged verbatim. -/
def hotkey_moving_average (previous_scores : List ℚ) (overall_score : ℚ) : ℚ :=
  let scores := previous_scores ++ [overall_score]
  let numerator_scores := scores.take 12
  numerator_scores.sum / (numerator_scores.length : ℚ)

/-- `HotkeyOwnershipChallenge._calculate_zero_score`. -/
def hotkey_calculate_zero_score (uid : Nat) (hotkey coldkey : String)
    (previous : List ℚ) (response_time : ℚ) (error_message : String) :
    MinerScore ℚ :=
  { uid := uid, hotkey := hotkey, coldkey := coldkey
    overall_score := 0
    responsiveness_score := 0
    overall_score_moving_average := hotkey_moving_average previous 0
    response_time_seconds := response_time
    volume := 0
    volume_score := 0
    novelty_score := some 0
    validation_passed := false
    error_message := some error_message
    task_type := .HOTKEY_OWNERSHIP }

/-- `HotkeyOwnershipChallenge._calculate_score`. `scoringFn` stands for
the external `HotkeyOwnershipScoring.score` applied with `passed = True`:
it yields `(overall, responsiveness)` from the response time. -/
def hotkey_calculate_score (uid : Nat) (hotkey coldkey : String)
    (previous : List ℚ) (scoringFn : ℚ → ℚ × ℚ) (response_time : ℚ) :
    MinerScore ℚ :=
  let score := scoringFn response_time
  { uid := uid, hotkey := hotkey, coldkey := coldkey
    overall_score := score.1
    responsiveness_score := score.2
    overall_score_moving_average := hotkey_moving_average previous score.1
    response_time_seconds := response_time
    volume := 0
    volume_score := 0
    novelty_score := some 0
    validation_passed := true
    error_message := none
    task_type := .HOTKEY_OWNERSHIP }

/-- The score `execute_challenge` builds: a zero score with
`response_time = 0` on a `MinerTaskException`, a zero score with the
measured response time on a `ValidationException`, and the scored result
on success. -/
def challenge_score (scoringFn : ℚ → ℚ × ℚ) (uid : Nat)
    (hotkey coldkey : String) (previous : List ℚ)
    (minerResult : Except String ℚ)
    (validationOutcome : Except String Unit) : MinerScore ℚ :=
  match minerResult with
  | .error err => hotkey_calculate_zero_score uid hotkey coldkey previous 0 err
  | .ok response_time =>
    match validationOutcome with
    | .error err =>
      hotkey_calculate_zero_score uid hotkey coldkey previous response_time err
    | .ok () =>
      hotkey_calculate_score uid hotkey coldkey previous scoringFn response_time

/-- `HotkeyOwnershipChallenge.execute_challenge`. `minerResult` is the
miner dispatch: a `MinerTaskException` message or the measured response
time (the response itself is summarized by `validationOutcome`, the
verdict of `validator.validate` on it: `ValidationException` message or
success). The score repository is the list `repo`; the optional dashboard
client may fail, and its failure is caught and logged. Returns the new
repository contents and the score that was persisted. -/
def execute_challenge (scoringFn : ℚ → ℚ × ℚ) (uid : Nat)
    (hotkey coldkey : String) (previous : List ℚ)
    (minerResult : Except String ℚ) (validationOutcome : Except String Unit)
    (repo : List (MinerScore ℚ))
    (dashboard : Option (MinerScore ℚ → Except String Unit)) :
    List (MinerScore ℚ) × MinerScore ℚ :=
  let score := challenge_score scoringFn uid hotkey coldkey previous
    minerResult validationOutcome
  let repo' := repo ++ [score]
  match dashboard with
  | none => (repo', score)
  | some send =>
    match send score with
    | .ok () => (repo', score)
    | .error _ => (repo', score)

/-! #### Volume/responsiveness policy: `MinerScoring` (miner_scoring.py) -/

/-- `NUMBER_OF_LOW_SCORES_TO_DISCARD`. -/
def NUMBER_OF_LOW_SCORES_TO_DISCARD : Nat := 2

/-- Insert into a descending-sorted list (stable, as Python `sorted`). -/
def insertDesc {α : Type} [LinearOrder α] (x : α) : List α → List α
  | [] => [x]
  | y :: rest => if y < x then x :: y :: rest else y :: insertDesc x rest

/-- `sorted(_, reverse=True)`. -/
def sortDesc {α : Type} [LinearOrder α] : List α → List α
  | [] => []
  | x :: rest => insertDesc x (sortDesc rest)

/-- `MinerScoring._moving_average` with configured denominator `d`
(default 20): up to `d-1` most-recent prior overall scores plus the new
one, sorted descending, the first `d - 2` kept, averaged. -/
def coldkey_moving_average {α : Type} [LinearOrderedField α] (d : Nat)
    (previous : List α) (overall_score : α) : α :=
  let previous_scores := previous ++ [overall_score]
  let numerator_scores := sortDesc previous_scores
  let denominator := d - NUMBER_OF_LOW_SCORES_TO_DISCARD
  let numerator_scores := numerator_scores.take denominator
  numerator_scores.sum / (numerator_scores.length : α)

/-- Modelled from the spec's words (§4.4/§8): sort descending, drop the
lowest 2 values, average the remainder. Used for the refinement
comparison with `coldkey_moving_average`. -/
def spec_drop2_average {α : Type} [LinearOrderedField α]
    (previous : List α) (overall_score : α) : α :=
  let sorted := sortDesc (previous ++ [overall_score])
  let kept := sorted.take (sorted.length - 2)
  kept.sum / (kept.length : α)

/-- `Constants.STEEPNESS` (the Python float literal 0.005, idealized as
the exact rational it denotes in the formulas). -/
noncomputable def STEEPNESS : ℝ := 5 / 1000

/-- `Constants.INFLECTION_POINT`. -/
noncomputable def INFLECTION_POINT : ℝ := 1000

/-- `Constants.RESPONSE_TIME_HALF_SCORE`. -/
noncomputable def RESPONSE_TIME_HALF_SCORE : ℝ := 2

/-- `MinerScoring.calculate_volume_score`: the sigmoid
`1 / (1 + e^{-steepness·(total_items − inflection_point)})`. -/
noncomputable def calculate_volume_score (total_items : ℤ) : ℝ :=
  1 / (1 + Real.exp (-STEEPNESS * ((total_items : ℝ) - INFLECTION_POINT)))

/-- `MinerScoring.calculate_responsiveness_score`. -/
noncomputable def calculate_responsiveness_score (response_time : ℝ) : ℝ :=
  RESPONSE_TIME_HALF_SCORE / (response_time + RESPONSE_TIME_HALF_SCORE)

/-- The validation result handed to `MinerScoring.calculate_score`. -/
structure ValidationResult where
  validated : Bool
  message : String
  volume : Int
deriving DecidableEq, Repr

/-- `MinerScoring.calculate_score` (moving-average denominator `d`,
default 20): failed validation yields a zero score that still records the
validation result's volume; success combines the volume and
responsiveness scores with importance weights 0.9/0.1. -/
noncomputable def coldkey_calculate_score (d : Nat) (uid : Nat)
    (coldkey hotkey : String) (validation_result : ValidationResult)
    (response_time : ℝ) (previous : List ℝ) : MinerScore ℝ :=
  if !validation_result.validated then
    { uid := uid, hotkey := hotkey, coldkey := coldkey
      overall_score_moving_average := coldkey_moving_average d previous 0
      overall_score := 0
      volume_score := 0
      volume := validation_result.volume
      responsiveness_score := 0
      response_time_seconds := response_time
      novelty_score := none
      validation_passed := false
      error_message := some validation_result.message
      task_type := .COLDKEY_SEARCH }
  else
    let volume_score := calculate_volume_score validation_result.volume
    let responsiveness_score := calculate_responsiveness_score response_time
    let overall_score := volume_score * (9 / 10) + responsiveness_score * (1 / 10)
    { uid := uid, hotkey := hotkey, coldkey := coldkey
      overall_score_moving_average := coldkey_moving_average d previous overall_score
      overall_score := overall_score
      volume_score := volume_score
      volume := validation_result.volume
      responsiveness_score := responsiveness_score
      response_time_seconds := response_time
      novelty_score := none
      validation_passed := true
      error_message := none
      task_type := .COLDKEY_SEARCH }

/-- `MinerScoring.calculate_zero_score`. -/
noncomputable def coldkey_calculate_zero_score (d : Nat) (uid : Nat)
    (coldkey hotkey : String) (error_message : String) (previous : List ℝ) :
    MinerScore ℝ :=
  { uid := uid, hotkey := hotkey, coldkey := coldkey
    overall_score_moving_average := coldkey_moving_average d previous 0
    overall_score := 0
    volume_score := 0
    volume := 0
    responsiveness_score := 0
    response_time_seconds := 0
    novelty_score := none
    validation_passed := false
    error_message := some error_message
    task_type := .COLDKEY_SEARCH }

/-! #### `normalize_scores` (miner_scoring.py) -/

/-- Python `round(q, 6)`: round half to even at six decimal places
(exact on the rationals; the claims' values are exactly representable). -/
def round6 (q : ℚ) : ℚ :=
  let scaled := q * 1000000
  let fl : ℤ := ⌊scaled⌋
  let frac := scaled - (fl : ℚ)
  let r : ℤ :=
    if frac > 1 / 2 then fl + 1
    else if frac < 1 / 2 then fl
    else if fl % 2 = 0 then fl else fl + 1
  (r : ℚ) / 1000000

/-- Python `min` over a nonempty list of values (0 on the empty list,
which `normalize_scores` never reaches). -/
def pyMin : List ℚ → ℚ
  | [] => 0
  | [x] => x
  | x :: y :: rest => min x (pyMin (y :: rest))

/-- Python `max`, as `pyMin`. -/
def pyMax : List ℚ → ℚ
  | [] => 0
  | [x] => x
  | x :: y :: rest => max x (pyMax (y :: rest))

/-- What `normalize_scores` returns: a dict on the normal paths, but a
plain list on the all-equal degenerate path. -/
inductive NormalizeResult where
  | dict (entries : List (Int × ℚ))
  | list (values : List ℚ)
deriving DecidableEq, Repr

/-- `normalize_scores`: min-max normalization rounded to 6 decimals;
an empty input yields an empty dict, and an input with no spread
(min = max) yields — a list, `[1.0] * len(scores)`. -/
def normalize_scores (scores : List (Int × ℚ)) : NormalizeResult :=
  if scores = [] then .dict []
  else
    let vals := scores.map (fun p => p.2)
    let min_score := pyMin vals
    let max_score := pyMax vals
    if min_score = max_score then .list (List.replicate scores.length 1)
    else .dict (scores.map (fun p =>
      (p.1, round6 ((p.2 - min_score) / (max_score - min_score)))))

/-- The concrete inputs of the claim's examples. -/
def nsEqualSample : List (Int × ℚ) := [(1, 5), (2, 5)]

def nsSpreadSample : List (Int × ℚ) := [(1, 10), (2, 20), (3, 30)]

end Patrol

namespace Patrol

set_option maxRecDepth 100000

/-! ### Sanity checks: the embedding reproduces `json.dumps` and
`hashlib.sha256` on reference vectors -/

example : sha256Hex [0x61, 0x62, 0x63] =
    "ba7816bf8f01cfea414140de5dae2223b00361a396177a9cb410ff61f20015ad" := by decide

example : event_hash_string sampleTransfer =
    "\x7b\"block_number\": 1, \"coldkey_destination\": \"b\", \"coldkey_source\": \"a\", \"edge_category\": \"t\", \"edge_type\": \"x\", \"rao_amount\": 2\x7d" := by decide

example : create_event_hash sampleTransfer = sampleHash := by decide

example : create_event_hash sampleStake =
    "038c44f2fd7d1f4c80cd09ea85766ce22def4a44d96278e8aea3f753362019f0" := by decide

/-! ### Helper lemmas about the event store -/

theorem from_event_sampleAt (bn : Int) (hash : String)
    (h : create_event_hash (sampleTransferAt bn) = hash) :
    from_event (sampleTransferAt bn) = some (sampleRowAt bn hash) := by
  subst h
  rfl

theorem hashPresent_append (db db' : Store) (h : String) :
    hashPresent (db ++ db') h = (hashPresent db h || hashPresent db' h) := by
  simp [hashPresent]

theorem hashPresent_single (r : ChainEventRow) (h : String) :
    hashPresent [r] h = (r.edge_hash == h) := by
  simp [hashPresent]

theorem countRows_append (db db' : Store) (h : String) :
    countRows (db ++ db') h = countRows db h + countRows db' h := by
  simp [countRows]

theorem countRows_eq_zero (db : Store) (h : String)
    (hn : hashPresent db h = false) : countRows db h = 0 := by
  simp only [hashPresent, List.any_eq_false] at hn
  simp only [countRows, List.length_eq_zero, List.filter_eq_nil_iff]
  intro r hr
  exact hn r hr

theorem countRows_single_self (r : ChainEventRow) :
    countRows [r] r.edge_hash = 1 := by
  simp [countRows]

theorem distinctHashes_cons (h : String) (t : List String) :
    distinctHashes (h :: t) = ((!t.any (fun x => x == h)) && distinctHashes t) := rfl

theorem fallbackLoop_clean (rows : List ChainEventRow) :
    ∀ db : Store, (∀ r ∈ rows, hashPresent db r.edge_hash = false) →
    distinctHashes (rows.map (fun r => r.edge_hash)) = true →
    fallbackLoop db rows = (db ++ rows, 0) := by
  induction rows with
  | nil => intro db _ _; simp [fallbackLoop]
  | cons r rest ih =>
    intro db hnew hdist
    rw [List.map_cons, distinctHashes_cons, Bool.and_eq_true] at hdist
    obtain ⟨hno, hdist'⟩ := hdist
    rw [Bool.not_eq_true', List.any_eq_false] at hno
    rw [fallbackLoop, hnew r (List.mem_cons_self r rest)]
    simp only [Bool.false_eq_true, if_false]
    rw [ih (db ++ [r]) ?_ hdist']
    · simp
    · intro r' hr'
      rw [hashPresent_append, hnew r' (List.mem_cons_of_mem r hr'), hashPresent_single,
        Bool.false_or]
      have := hno r'.edge_hash (List.mem_map_of_mem (fun r => r.edge_hash) hr')
      simp only [beq_iff_eq] at this
      simp only [beq_eq_false_iff_ne]
      exact fun hh => this hh.symm

theorem fallbackLoop_one_dup (pre : List ChainEventRow) :
    ∀ (db : Store) (c : ChainEventRow) (post : List ChainEventRow),
    hashPresent db c.edge_hash = true →
    (∀ r ∈ pre ++ post, hashPresent db r.edge_hash = false) →
    distinctHashes ((pre ++ c :: post).map (fun r => r.edge_hash)) = true →
    fallbackLoop db (pre ++ c :: post) = (db ++ (pre ++ post), 1) := by
  induction pre with
  | nil =>
    intro db c post hc hnew hdist
    rw [List.nil_append, List.map_cons, distinctHashes_cons, Bool.and_eq_true] at hdist
    rw [List.nil_append, fallbackLoop, hc]
    simp only [if_true]
    rw [fallbackLoop_clean post db (fun r hr => hnew r hr) hdist.2]
    simp
  | cons a pre' ih =>
    intro db c post hc hnew hdist
    rw [List.cons_append, List.map_cons, distinctHashes_cons, Bool.and_eq_true] at hdist
    obtain ⟨hno, hdist'⟩ := hdist
    rw [Bool.not_eq_true', List.any_eq_false] at hno
    rw [List.cons_append, fallbackLoop, hnew a (List.mem_cons_self a _)]
    simp only [Bool.false_eq_true, if_false]
    rw [ih (db ++ [a]) c post ?_ ?_ hdist']
    · simp
    · rw [hashPresent_append, hc, Bool.true_or]
    · intro r hr
      rw [hashPresent_append, hnew r (List.mem_cons_of_mem a hr), hashPresent_single,
        Bool.false_or]
      have hmem : r.edge_hash ∈ (pre' ++ c :: post).map (fun r => r.edge_hash) := by
        apply List.mem_map_of_mem
        rcases List.mem_append.mp hr with h1 | h2
        · exact List.mem_append.mpr (Or.inl h1)
        · exact List.mem_append.mpr (Or.inr (List.mem_cons_of_mem c h2))
      have := hno r.edge_hash hmem
      simp only [beq_iff_eq] at this
      simp only [beq_eq_false_iff_ne]
      exact fun hh => this hh.symm

theorem mapM_from_event_single (e : Event) (r : ChainEventRow)
    (h : from_event e = some r) : [e].mapM from_event = some [r] := by
  simp [List.mapM, List.mapM.loop, h]

theorem add_events_single (db : Store) (e : Event) (r : ChainEventRow)
    (h : from_event e = some r) :
    add_events db [e] =
      if bulkOk db [r] then Except.ok ⟨db ++ [r], 0, none⟩
      else Except.ok ⟨(fallbackLoop db [r]).1, (fallbackLoop db [r]).2, none⟩ := by
  unfold add_events
  rw [mapM_from_event_single e r h]

theorem add_events_eq_of_mapM (db : Store) (events : List Event)
    (rows : List ChainEventRow) (h : events.mapM from_event = some rows) :
    add_events db events =
      if bulkOk db rows then Except.ok ⟨db ++ rows, 0, none⟩
      else Except.ok ⟨(fallbackLoop db rows).1, (fallbackLoop db rows).2, none⟩ := by
  unfold add_events
  rw [h]

/-! ### Claim C1 -/

/-- C1 counterexample: called on a store already holding the sample row and
a batch consisting of a duplicate of it, `add_events` completes normally,
internally counts 1 duplicate, but returns `None` — not the
`(insertedCount, duplicateCount)` pair the claim says it returns. -/
theorem add_events_returns_none_on_duplicates_cex :
    add_events [sampleRow] [sampleTransfer] =
      Except.ok ⟨[sampleRow], 1, none⟩ := by
  rfl

/-- C1 (amended): for every batch of well-formed events (those on which
`from_event` does not raise), `add_events` never raises — also when some
events are duplicates — but it returns `None`; the duplicate count is only
tracked internally for logging, and no `(insertedCount, duplicateCount)`
pair is returned. -/
theorem add_events_never_raises_and_returns_none
    (db : Store) (events : List Event) (rows : List ChainEventRow)
    (h : events.mapM from_event = some rows) :
    ∃ out, add_events db events = Except.ok out ∧ out.returned = none := by
  rw [add_events_eq_of_mapM db events rows h]
  split
  · exact ⟨_, rfl, rfl⟩
  · exact ⟨_, rfl, rfl⟩

/-- Witness for C1's amended theorem: a store holding the sample row, and a
batch containing that same logical event (a duplicate). -/
theorem add_events_never_raises_and_returns_none_witness :
    ∃ out, add_events [sampleRow] [sampleTransfer] = Except.ok out ∧
      out.returned = none :=
  add_events_never_raises_and_returns_none [sampleRow] [sampleTransfer]
    [sampleRow] (by decide)

/-! ### Claim C2 -/

/-- C2: ingestion is idempotent and isolates partial failures.
First conjunct (idempotency): inserting an event and then a second event
with the same `edge_hash` (identical identity fields) leaves exactly one
stored row under that key, and the second call counts 1 duplicate instead
of failing. Second conjunct (isolation): for a batch in which exactly one
event collides with an existing row (the batch itself being
collision-free), every non-colliding event is stored and exactly one
duplicate is counted; the bulk transaction cannot commit in this
situation, so the per-item fallback runs — and the bulk path, when it
does commit, stores every event with zero duplicates, so the counts agree
on whichever path executed. -/
theorem add_events_idempotent_and_isolates_partial_failure :
    (∀ (db : Store) (e e' : Event) (r r' : ChainEventRow),
      from_event e = some r → from_event e' = some r' →
      r'.edge_hash = r.edge_hash →
      hashPresent db r.edge_hash = false →
      ∃ out1 out2,
        add_events db [e] = Except.ok out1 ∧ out1.store = db ++ [r] ∧
        add_events out1.store [e'] = Except.ok out2 ∧
        out2.store = out1.store ∧ out2.duplicate_count = 1 ∧
        countRows out2.store r.edge_hash = 1) ∧
    (∀ (db : Store) (events : List Event) (pre : List ChainEventRow)
        (c : ChainEventRow) (post : List ChainEventRow),
      events.mapM from_event = some (pre ++ c :: post) →
      hashPresent db c.edge_hash = true →
      (∀ r ∈ pre ++ post, hashPresent db r.edge_hash = false) →
      distinctHashes ((pre ++ c :: post).map (fun r => r.edge_hash)) = true →
      ∃ out, add_events db events = Except.ok out ∧
        out.store = db ++ (pre ++ post) ∧
        out.duplicate_count = 1) := by
  constructor
  · intro db e e' r r' he he' hsame hnot
    have hbulk1 : bulkOk db [r] = true := by
      simp [bulkOk, distinctHashes, hnot]
    have h1 : add_events db [e] = Except.ok ⟨db ++ [r], 0, none⟩ := by
      rw [add_events_single db e r he, hbulk1]
      simp
    have hpresent : hashPresent (db ++ [r]) r'.edge_hash = true := by
      rw [hashPresent_append, hashPresent_single, hsame]
      simp
    have hbulk2 : bulkOk (db ++ [r]) [r'] = false := by
      simp [bulkOk, hpresent]
    have hfall : fallbackLoop (db ++ [r]) [r'] = (db ++ [r], 1) := by
      rw [fallbackLoop, hpresent]
      simp [fallbackLoop]
    have h2 : add_events (db ++ [r]) [e'] = Except.ok ⟨db ++ [r], 1, none⟩ := by
      rw [add_events_single (db ++ [r]) e' r' he', hbulk2, hfall]
      simp
    refine ⟨⟨db ++ [r], 0, none⟩, ⟨db ++ [r], 1, none⟩, h1, rfl, h2, rfl, rfl, ?_⟩
    rw [countRows_append, countRows_eq_zero db r.edge_hash hnot,
      countRows_single_self]
  · intro db events pre c post hmap hc hnew hdist
    have hbulk : bulkOk db (pre ++ c :: post) = false := by
      apply Bool.and_eq_false_iff.mpr
      left
      apply List.all_eq_false.mpr
      refine ⟨c, List.mem_append.mpr (Or.inr (List.mem_cons_self c post)), ?_⟩
      simp [hc]
    have hfall := fallbackLoop_one_dup pre db c post hc hnew hdist
    rw [add_events_eq_of_mapM db events (pre ++ c :: post) hmap, hbulk]
    simp only [Bool.false_eq_true, if_false, hfall]
    exact ⟨_, rfl, rfl, rfl⟩

/-- Witness for C2: idempotency on the sample event (the second copy
carrying an extra non-identity field), and isolation on a 3-event batch
whose middle event collides with the stored sample row. -/
theorem add_events_idempotent_and_isolates_partial_failure_witness :
    (∃ out1 out2,
        add_events [] [sampleTransfer] = Except.ok out1 ∧
        out1.store = [] ++ [sampleRow] ∧
        add_events out1.store [sampleOwner] = Except.ok out2 ∧
        out2.store = out1.store ∧ out2.duplicate_count = 1 ∧
        countRows out2.store sampleRow.edge_hash = 1) ∧
    (∃ out,
        add_events [sampleRow] [sampleTransferAt 10, sampleTransfer, sampleTransferAt 11] =
          Except.ok out ∧
        out.store = [sampleRow] ++ ([sampleRow10] ++ [sampleRow11]) ∧
        out.duplicate_count = 1) :=
  ⟨add_events_idempotent_and_isolates_partial_failure.1 [] sampleTransfer
      sampleOwner sampleRow sampleRowOwner (by decide) (by decide) rfl rfl,
   add_events_idempotent_and_isolates_partial_failure.2 [sampleRow]
      [sampleTransferAt 10, sampleTransfer, sampleTransferAt 11]
      [sampleRow10] sampleRow [sampleRow11] (by decide) (by decide)
      (by decide) (by decide)⟩

/-! ### Claim C3 -/

/-- C3 counterexample: `sampleTransfer` and `typeFallbackEvent` differ in
the identity field `edge_type` (present in one, absent in the other), yet
their hashes are equal, because `create_event_hash` falls back to the
unrelated key `type`. So the hash is not a function of exactly the six
common identity fields, it is affected by an extra field (`type`), and it
does not differ whenever an identity field differs. -/
theorem create_event_hash_exact_fields_cex :
    eget sampleTransfer "edge_type" ≠ eget typeFallbackEvent "edge_type" ∧
    create_event_hash sampleTransfer = create_event_hash typeFallbackEvent := by
  refine ⟨by decide, ?_⟩
  unfold create_event_hash
  rw [show event_hash_string sampleTransfer = event_hash_string typeFallbackEvent
    by decide]

/-- C3 (amended): `create_event_hash` is the hex SHA-256 of the
lexicographically-key-sorted JSON of the identity mapping in which
`edge_category` falls back to the key `category` and `edge_type` falls
back to the key `type` (Python `or`), with the four staking fields added
exactly when the raw `edge_category` entry equals `"staking"`. Hence:
(1) the hash depends on at most the twelve keys `relevantKeys` — two
events agreeing on those hash equal, and unrelated extra fields other
than `category`/`type` never affect it; (2) for events that carry truthy
`edge_category` and `edge_type` entries directly, the hash is exactly the
spec's six-field (plus staking) hash; (3) the staking fields enter the
hashed mapping exactly when `edge_category == "staking"`. -/
theorem create_event_hash_characterization :
    (∀ e e' : Event, (∀ k ∈ relevantKeys, eget e k = eget e' k) →
      create_event_hash e = create_event_hash e') ∧
    (∀ e : Event, (eget e "edge_category").truthy →
      (eget e "edge_type").truthy →
      create_event_hash e = spec_event_hash e) ∧
    (∀ e : Event,
      "destination_net_uid" ∈ (hash_fields e).map (fun p => p.1) ↔
        eget e "edge_category" = JValue.str "staking") := by
  refine ⟨?_, ?_, ?_⟩
  · intro e e' hk
    have h1 := hk "coldkey_source" (by decide)
    have h2 := hk "coldkey_destination" (by decide)
    have h3 := hk "edge_category" (by decide)
    have h4 := hk "category" (by decide)
    have h5 := hk "edge_type" (by decide)
    have h6 := hk "type" (by decide)
    have h7 := hk "block_number" (by decide)
    have h8 := hk "rao_amount" (by decide)
    have h9 := hk "destination_net_uid" (by decide)
    have h10 := hk "source_net_uid" (by decide)
    have h11 := hk "delegate_hotkey_source" (by decide)
    have h12 := hk "delegate_hotkey_destination" (by decide)
    have heq : hash_fields e = hash_fields e' := by
      unfold hash_fields
      rw [h1, h2, h3, h4, h5, h6, h7, h8, h9, h10, h11, h12]
    unfold create_event_hash event_hash_string json_dumps_sorted
    rw [heq]
  · intro e hcat hty
    have heq : hash_fields e = spec_hash_fields e := by
      unfold hash_fields spec_hash_fields
      rw [show pyOr (eget e "edge_category") (eget e "category") =
            eget e "edge_category" by simp [pyOr, hcat]]
      rw [show pyOr (eget e "edge_type") (eget e "type") =
            eget e "edge_type" by simp [pyOr, hty]]
    unfold create_event_hash spec_event_hash event_hash_string json_dumps_sorted
    rw [heq]
  · intro e
    by_cases h : eget e "edge_category" = JValue.str "staking"
    · simp [hash_fields, h]
    · simp [hash_fields, h]

/-- Witness for C3's amended theorem: the extra field `coldkey_owner` does
not change the hash, and on a plain transfer event the code's hash equals
the spec's six-field hash. -/
theorem create_event_hash_characterization_witness :
    create_event_hash sampleTransfer = create_event_hash sampleOwner ∧
    create_event_hash sampleTransfer = spec_event_hash sampleTransfer :=
  ⟨create_event_hash_characterization.1 sampleTransfer sampleOwner (by decide),
   create_event_hash_characterization.2.1 sampleTransfer (by decide) (by decide)⟩

/-! ### Claim C4 -/

theorem contains_iff (l : List String) (a : String) : l.contains a = true ↔ a ∈ l := by
  simp [List.contains, List.elem_iff]

theorem adjacentB_iff (edges : List GraphEdge) (u v : String) :
    adjacentB edges u v = true ↔ Adjacent edges u v := by
  simp [adjacentB, Adjacent, List.any_eq_true]

theorem adjacent_symm (edges : List GraphEdge) (u v : String)
    (h : Adjacent edges u v) : Adjacent edges v u := by
  obtain ⟨e, he, h1 | h2⟩ := h
  · exact ⟨e, he, Or.inr h1⟩
  · exact ⟨e, he, Or.inl h2⟩

theorem gstep_symmetric (edges : List GraphEdge) (nodes : List String) :
    Symmetric (GStep edges nodes) := by
  intro a b ⟨ha, hb, hadj⟩
  exact ⟨hb, ha, adjacent_symm edges a b hadj⟩

theorem checkNodes_eq_none_iff (rest : List String) :
    ∀ seen, checkNodes seen rest = none ↔ rest.Nodup ∧ ∀ n ∈ rest, n ∉ seen := by
  induction rest with
  | nil => intro seen; simp [checkNodes]
  | cons n rest ih =>
    intro seen
    by_cases h : seen.contains n = true
    · rw [checkNodes, if_pos h]
      simp only [reduceCtorEq, false_iff, not_and]
      intro _ hall
      exact absurd (contains_iff seen n |>.mp h) (hall n (List.mem_cons_self n rest))
    · rw [checkNodes, if_neg h, ih (n :: seen)]
      rw [contains_iff] at h
      constructor
      · rintro ⟨hnd, hall⟩
        refine ⟨List.nodup_cons.mpr ⟨?_, hnd⟩, ?_⟩
        · intro hn
          exact (hall n hn) (List.mem_cons_self n seen)
        · intro m hm
          rcases List.mem_cons.mp hm with rfl | hm'
          · exact h
          · intro hms
            exact (hall m hm') (List.mem_cons_of_mem n hms)
      · rintro ⟨hnd, hall⟩
        obtain ⟨hnn, hnd'⟩ := List.nodup_cons.mp hnd
        refine ⟨hnd', ?_⟩
        intro m hm hmem
        rcases List.mem_cons.mp hmem with rfl | hms
        · exact hnn hm
        · exact (hall m (List.mem_cons_of_mem n hm)) hms

theorem checkEdges_eq_none_iff (nodes : List String) (rest : List GraphEdge) :
    ∀ added, checkEdges nodes added rest = none ↔
      (∀ e ∈ rest, e.coldkey_source ≠ e.coldkey_destination ∧
        e.coldkey_source ∈ nodes ∧ e.coldkey_destination ∈ nodes) ∧
      (rest.map edgeTriple).Nodup ∧
      ∀ t ∈ rest.map edgeTriple, t ∉ added := by
  induction rest with
  | nil => intro added; simp [checkEdges]
  | cons e rest ih =>
    intro added
    rw [checkEdges]
    by_cases h1 : e.coldkey_source == e.coldkey_destination
    · rw [if_pos h1]
      simp only [reduceCtorEq, false_iff, not_and]
      intro hall
      exact absurd (eq_of_beq h1) (hall e (List.mem_cons_self e rest)).1
    · rw [if_neg h1]
      by_cases h2 : nodes.contains e.coldkey_source
      · rw [if_neg (by rw [h2]; simp)]
        by_cases h3 : nodes.contains e.coldkey_destination
        · rw [if_neg (by rw [h3]; simp)]
          by_cases h4 : added.contains (edgeTriple e)
          · rw [if_pos h4]
            simp only [reduceCtorEq, false_iff, not_and]
            intro _ _
            have : edgeTriple e ∈ added := by
              simpa [List.contains, List.elem_iff] using h4
            intro hall
            exact (hall (edgeTriple e)
              (List.mem_map_of_mem edgeTriple (List.mem_cons_self e rest))) this
          · rw [if_neg h4, ih (edgeTriple e :: added)]
            have hsrc : e.coldkey_source ∈ nodes := contains_iff nodes _ |>.mp h2
            have hdst : e.coldkey_destination ∈ nodes := contains_iff nodes _ |>.mp h3
            have hne : e.coldkey_source ≠ e.coldkey_destination := by
              intro hh; exact h1 (beq_iff_eq.mpr hh)
            have hnadd : edgeTriple e ∉ added := by
              intro hh
              exact h4 (by simpa [List.contains, List.elem_iff] using hh)
            constructor
            · rintro ⟨hall, hnd, hnin⟩
              refine ⟨?_, ?_, ?_⟩
              · intro e' he'
                rcases List.mem_cons.mp he' with rfl | hm
                · exact ⟨hne, hsrc, hdst⟩
                · exact hall e' hm
              · rw [List.map_cons, List.nodup_cons]
                refine ⟨?_, hnd⟩
                intro hmem
                exact (hnin (edgeTriple e) hmem) (List.mem_cons_self _ _)
              · intro t ht
                rw [List.map_cons, List.mem_cons] at ht
                rcases ht with rfl | hm
                · exact hnadd
                · intro habs
                  exact (hnin t hm) (List.mem_cons_of_mem _ habs)
            · rintro ⟨hall, hnd, hnin⟩
              rw [List.map_cons, List.nodup_cons] at hnd
              refine ⟨?_, hnd.2, ?_⟩
              · intro e' hm
                exact hall e' (List.mem_cons_of_mem e hm)
              · intro t ht habs
                rcases List.mem_cons.mp habs with rfl | hm
                · exact hnd.1 ht
                · exact (hnin t (List.mem_cons_of_mem _ ht)) hm
        · rw [if_pos (by rw [Bool.not_eq_true] at h3; rw [h3]; rfl)]
          simp only [reduceCtorEq, false_iff, not_and]
          intro hall
          exact absurd ((hall e (List.mem_cons_self e rest)).2.2)
            (fun hc => h3 (contains_iff nodes _ |>.mpr hc))
      · rw [if_pos (by rw [Bool.not_eq_true] at h2; rw [h2]; rfl)]
        simp only [reduceCtorEq, false_iff, not_and]
        intro hall
        exact absurd ((hall e (List.mem_cons_self e rest)).2.1)
          (fun hc => h2 (contains_iff nodes _ |>.mpr hc))



theorem mem_expandStep (edges : List GraphEdge) (nodes vis : List String)
    (n : String) :
    n ∈ expandStep edges nodes vis ↔
      n ∈ vis ∨ (n ∈ nodes ∧ n ∉ vis ∧ ∃ v ∈ vis, Adjacent edges v n) := by
  simp only [expandStep, List.mem_append, List.mem_filter, Bool.and_eq_true,
    Bool.not_eq_true', List.any_eq_true]
  constructor
  · rintro (h | ⟨hn, hnc, v, hv, hadj⟩)
    · exact Or.inl h
    · refine Or.inr ⟨hn, ?_, v, hv, (adjacentB_iff edges v n).mp hadj⟩
      intro hc
      rw [(contains_iff vis n).mpr hc] at hnc
      cases hnc
  · rintro (h | ⟨hn, hnv, v, hv, hadj⟩)
    · exact Or.inl h
    · refine Or.inr ⟨hn, ?_, v, hv, (adjacentB_iff edges v n).mpr hadj⟩
      rw [Bool.eq_false_iff]
      intro hc
      exact hnv ((contains_iff vis n).mp hc)

theorem expandStep_sub (edges : List GraphEdge) (nodes vis : List String) :
    vis ⊆ expandStep edges nodes vis :=
  List.subset_append_left _ _

theorem expandStep_sub_nodes (edges : List GraphEdge) (nodes vis : List String)
    (h : vis ⊆ nodes) : expandStep edges nodes vis ⊆ nodes := by
  intro x hx
  rcases (mem_expandStep edges nodes vis x).mp hx with hv | ⟨hn, _, _⟩
  · exact h hv
  · exact hn

theorem reachList_sub (edges : List GraphEdge) (nodes : List String) :
    ∀ (fuel : Nat) (vis : List String), vis ⊆ reachList edges nodes fuel vis := by
  intro fuel
  induction fuel with
  | zero => intro vis; exact fun x hx => hx
  | succ n ih =>
    intro vis
    exact fun x hx => ih (expandStep edges nodes vis) (expandStep_sub edges nodes vis hx)

theorem reachList_fix_of_fix (edges : List GraphEdge) (nodes : List String)
    (vis : List String) (h : expandStep edges nodes vis = vis) :
    ∀ fuel, reachList edges nodes fuel vis = vis := by
  intro fuel
  induction fuel with
  | zero => rfl
  | succ n ih => rw [reachList, h, ih]

theorem expandStep_eq_self_of_closed (edges : List GraphEdge)
    (nodes vis : List String)
    (h : ∀ n ∈ nodes, (∃ v ∈ vis, Adjacent edges v n) → n ∈ vis) :
    expandStep edges nodes vis = vis := by
  have hfil : List.filter
      (fun n => !vis.contains n && vis.any fun v => adjacentB edges v n) nodes = [] := by
    rw [List.filter_eq_nil_iff]
    intro n hn hcond
    rw [Bool.and_eq_true, Bool.not_eq_true', List.any_eq_true] at hcond
    obtain ⟨hnc, v, hv, hadj⟩ := hcond
    have hmem : n ∈ vis := h n hn ⟨v, hv, (adjacentB_iff edges v n).mp hadj⟩
    rw [(contains_iff vis n).mpr hmem] at hnc
    cases hnc
  rw [expandStep, hfil, List.append_nil]

theorem expandStep_closed_of_eq_self (edges : List GraphEdge)
    (nodes vis : List String) (h : expandStep edges nodes vis = vis) :
    ∀ n ∈ nodes, (∃ v ∈ vis, Adjacent edges v n) → n ∈ vis := by
  intro n hn hadj
  have : n ∈ expandStep edges nodes vis := by
    rw [mem_expandStep]
    by_cases hv : n ∈ vis
    · exact Or.inl hv
    · exact Or.inr ⟨hn, hv, hadj⟩
  rwa [h] at this

theorem expandStep_nodup (edges : List GraphEdge) (nodes vis : List String)
    (hn : nodes.Nodup) (hv : vis.Nodup) : (expandStep edges nodes vis).Nodup := by
  rw [expandStep, List.nodup_append]
  refine ⟨hv, List.Nodup.filter _ hn, ?_⟩
  intro x hx hxf
  rw [List.mem_filter, Bool.and_eq_true, Bool.not_eq_true'] at hxf
  rw [(contains_iff vis x).mpr hx] at hxf
  cases hxf.2.1

theorem nodes_sub_of_length_le (nodes vis : List String) (hv : vis.Nodup)
    (hsub : vis ⊆ nodes) (hlen : nodes.length ≤ vis.length) :
    ∀ n ∈ nodes, n ∈ vis := by
  classical
  have hsubF : vis.toFinset ⊆ nodes.toFinset := by
    intro x hx
    exact List.mem_toFinset.mpr (hsub (List.mem_toFinset.mp hx))
  have hcard : nodes.toFinset.card ≤ vis.toFinset.card := by
    calc nodes.toFinset.card ≤ nodes.length := List.toFinset_card_le nodes
      _ ≤ vis.length := hlen
      _ = vis.toFinset.card := (List.toFinset_card_of_nodup hv).symm
  have heq : vis.toFinset = nodes.toFinset :=
    Finset.eq_of_subset_of_card_le hsubF hcard
  intro n hn
  have : n ∈ vis.toFinset := heq ▸ List.mem_toFinset.mpr hn
  exact List.mem_toFinset.mp this

theorem reachList_fixpoint (edges : List GraphEdge) (nodes : List String)
    (hnodes : nodes.Nodup) :
    ∀ (fuel : Nat) (vis : List String), vis.Nodup → vis ⊆ nodes →
      nodes.length ≤ fuel + vis.length →
      expandStep edges nodes (reachList edges nodes fuel vis) =
        reachList edges nodes fuel vis := by
  intro fuel
  induction fuel with
  | zero =>
    intro vis hv hsub hlen
    rw [reachList]
    apply expandStep_eq_self_of_closed
    intro n hn _
    exact nodes_sub_of_length_le nodes vis hv hsub (by omega) n hn
  | succ k ih =>
    intro vis hv hsub hlen
    rw [reachList]
    by_cases hfix : expandStep edges nodes vis = vis
    · rw [hfix, reachList_fix_of_fix edges nodes vis hfix k, hfix]
    · have hgrow : vis.length < (expandStep edges nodes vis).length := by
        rw [expandStep, List.length_append]
        rcases Nat.lt_or_ge vis.length (vis.length +
          (List.filter _ nodes).length) with h | h
        · exact h
        · exfalso
          have : (List.filter (fun n =>
              !vis.contains n && vis.any fun v => adjacentB edges v n) nodes).length = 0 := by
            omega
          rw [List.length_eq_zero] at this
          exact hfix (by rw [expandStep, this, List.append_nil])
      exact ih (expandStep edges nodes vis)
        (expandStep_nodup edges nodes vis hnodes hv)
        (expandStep_sub_nodes edges nodes vis hsub)
        (by omega)



theorem reachList_sound (edges : List GraphEdge) (nodes : List String)
    (n0 : String) :
    ∀ (fuel : Nat) (vis : List String), vis ⊆ nodes →
      (∀ x ∈ vis, Relation.ReflTransGen (GStep edges nodes) n0 x) →
      ∀ x ∈ reachList edges nodes fuel vis,
        Relation.ReflTransGen (GStep edges nodes) n0 x := by
  intro fuel
  induction fuel with
  | zero => intro vis _ hall x hx; exact hall x hx
  | succ k ih =>
    intro vis hsub hall x hx
    rw [reachList] at hx
    refine ih (expandStep edges nodes vis)
      (expandStep_sub_nodes edges nodes vis hsub) ?_ x hx
    intro y hy
    rcases (mem_expandStep edges nodes vis y).mp hy with hv | ⟨hyn, _, v, hv, hadj⟩
    · exact hall y hv
    · exact Relation.ReflTransGen.tail (hall v hv) ⟨hsub hv, hyn, hadj⟩

theorem reachList_complete (edges : List GraphEdge) (nodes : List String)
    (hnodes : nodes.Nodup) (n0 : String) (hn0 : n0 ∈ nodes) :
    ∀ x, Relation.ReflTransGen (GStep edges nodes) n0 x →
      x ∈ reachList edges nodes nodes.length [n0] := by
  have hfix := reachList_fixpoint edges nodes hnodes nodes.length [n0]
    (List.nodup_singleton n0) (by intro y hy; rw [List.mem_singleton] at hy; exact hy ▸ hn0)
    (by simp)
  have hclosed := expandStep_closed_of_eq_self edges nodes _ hfix
  intro x hx
  induction hx with
  | refl =>
    exact reachList_sub edges nodes nodes.length [n0] (List.mem_singleton_self n0)
  | tail hab hbc ih =>
    exact hclosed _ hbc.2.1 ⟨_, ih, hbc.2.2⟩

theorem is_weakly_connected_iff (nodes : List String) (edges : List GraphEdge)
    (hnodup : nodes.Nodup) (hne : nodes ≠ []) :
    is_weakly_connected nodes edges = true ↔ WeaklyConnected nodes edges := by
  obtain ⟨n0, rest, rfl⟩ := List.exists_cons_of_ne_nil hne
  have hn0 : n0 ∈ n0 :: rest := List.mem_cons_self n0 rest
  rw [is_weakly_connected, List.all_eq_true]
  constructor
  · intro h u hu v hv
    have hru : Relation.ReflTransGen (GStep edges (n0 :: rest)) n0 u := by
      refine reachList_sound edges (n0 :: rest) n0 (n0 :: rest).length [n0]
        (by intro y hy; rw [List.mem_singleton] at hy; exact hy ▸ hn0)
        (by intro y hy; rw [List.mem_singleton] at hy; exact hy ▸ Relation.ReflTransGen.refl)
        u ?_
      exact (contains_iff _ u).mp (h u hu)
    have hrv : Relation.ReflTransGen (GStep edges (n0 :: rest)) n0 v := by
      refine reachList_sound edges (n0 :: rest) n0 (n0 :: rest).length [n0]
        (by intro y hy; rw [List.mem_singleton] at hy; exact hy ▸ hn0)
        (by intro y hy; rw [List.mem_singleton] at hy; exact hy ▸ Relation.ReflTransGen.refl)
        v ?_
      exact (contains_iff _ v).mp (h v hv)
    exact Relation.ReflTransGen.trans
      (Relation.ReflTransGen.symmetric (gstep_symmetric edges (n0 :: rest)) hru) hrv
  · intro h n hn
    exact (contains_iff _ n).mpr
      (reachList_complete edges (n0 :: rest) hnodup n0 hn0 n (h n0 hn0 n hn))



theorem validate_graph_some_ok_iff (g : Subgraph) :
    validate_graph (some g) = Except.ok () ↔ GraphOkConditions g := by
  show (if g.nodes.isEmpty then Except.error GraphError.zeroNodes
    else match checkNodes [] g.nodes with
    | some err => Except.error err
    | none =>
      match checkEdges g.nodes [] g.edges with
      | some err => Except.error err
      | none =>
        if is_weakly_connected g.nodes g.edges then Except.ok ()
        else Except.error GraphError.notConnected) = Except.ok () ↔ _
  by_cases hempty : g.nodes.isEmpty
  · rw [if_pos hempty]
    rw [List.isEmpty_iff] at hempty
    simp [GraphOkConditions, hempty]
  · rw [if_neg hempty]
    have hne : g.nodes ≠ [] := by
      intro hc
      exact hempty (by rw [hc]; rfl)
    cases hcn : checkNodes [] g.nodes with
    | some err =>
      have hnotnodup : ¬ g.nodes.Nodup := by
        intro hc
        have := (checkNodes_eq_none_iff g.nodes []).mpr ⟨hc, by simp⟩
        rw [this] at hcn
        cases hcn
      simp [GraphOkConditions, hnotnodup]
    | none =>
      obtain ⟨hnodup, -⟩ := (checkNodes_eq_none_iff g.nodes []).mp hcn
      cases hce : checkEdges g.nodes [] g.edges with
      | some err =>
        have hnotedges : ¬ ((∀ e ∈ g.edges,
            e.coldkey_source ≠ e.coldkey_destination ∧
            e.coldkey_source ∈ g.nodes ∧ e.coldkey_destination ∈ g.nodes) ∧
            (g.edges.map edgeTriple).Nodup) := by
          rintro ⟨h1, h2⟩
          have := (checkEdges_eq_none_iff g.nodes g.edges []).mpr ⟨h1, h2, by simp⟩
          rw [this] at hce
          cases hce
        constructor
        · intro hc; cases hc
        · rintro ⟨-, -, h1, h2, -⟩
          exact absurd ⟨h1, h2⟩ hnotedges
      | none =>
        obtain ⟨hedges, htriples, -⟩ := (checkEdges_eq_none_iff g.nodes g.edges []).mp hce
        by_cases hconn : is_weakly_connected g.nodes g.edges
        · rw [if_pos hconn]
          rw [is_weakly_connected_iff g.nodes g.edges hnodup hne] at hconn
          constructor
          · intro _
            exact ⟨hne, hnodup, hedges, htriples, hconn⟩
          · intro _
            rfl
        · rw [if_neg hconn]
          have hnconn : ¬ WeaklyConnected g.nodes g.edges := by
            intro hc
            exact hconn ((is_weakly_connected_iff g.nodes g.edges hnodup hne).mpr hc)
          simp [GraphOkConditions, hnconn]



theorem not_graphOkConditions_iff (g : Subgraph) :
    ¬ GraphOkConditions g ↔
      (g.nodes = [] ∨ ¬g.nodes.Nodup ∨
       (∃ e ∈ g.edges, e.coldkey_source = e.coldkey_destination) ∨
       (∃ e ∈ g.edges, e.coldkey_source ∉ g.nodes ∨
         e.coldkey_destination ∉ g.nodes) ∨
       ¬(g.edges.map edgeTriple).Nodup ∨
       ¬WeaklyConnected g.nodes g.edges) := by
  unfold GraphOkConditions
  rw [not_and_or, not_and_or, not_and_or, not_and_or]
  simp only [not_not, not_forall, exists_prop]
  constructor
  · rintro (h | h | ⟨e, he, hp⟩ | h | h)
    · exact Or.inl h
    · exact Or.inr (Or.inl h)
    · rw [not_and_or, not_and_or] at hp
      rcases hp with h1 | h2 | h3
      · exact Or.inr (Or.inr (Or.inl ⟨e, he, not_not.mp h1⟩))
      · exact Or.inr (Or.inr (Or.inr (Or.inl ⟨e, he, Or.inl h2⟩)))
      · exact Or.inr (Or.inr (Or.inr (Or.inl ⟨e, he, Or.inr h3⟩)))
    · exact Or.inr (Or.inr (Or.inr (Or.inr (Or.inl h))))
    · exact Or.inr (Or.inr (Or.inr (Or.inr (Or.inr h))))
  · rintro (h | h | ⟨e, he, hp⟩ | ⟨e, he, hp⟩ | h | h)
    · exact Or.inl h
    · exact Or.inr (Or.inl h)
    · refine Or.inr (Or.inr (Or.inl ⟨e, he, ?_⟩))
      rw [not_and_or]
      exact Or.inl (not_not.mpr hp)
    · refine Or.inr (Or.inr (Or.inl ⟨e, he, ?_⟩))
      rw [not_and_or, not_and_or]
      rcases hp with h1 | h2
      · exact Or.inr (Or.inl h1)
      · exact Or.inr (Or.inr h2)
    · exact Or.inr (Or.inr (Or.inr (Or.inl h)))
    · exact Or.inr (Or.inr (Or.inr (Or.inr h)))

theorem weaklyConnected_pair (a b : String) (blk : Int) :
    WeaklyConnected [a, b] [⟨a, b, blk⟩] := by
  have hstep : GStep [⟨a, b, blk⟩] [a, b] a b :=
    ⟨List.mem_cons_self a [b], List.mem_cons_of_mem a (List.mem_singleton_self b),
      ⟨⟨a, b, blk⟩, List.mem_singleton_self _, Or.inl ⟨rfl, rfl⟩⟩⟩
  have hstep' : GStep [⟨a, b, blk⟩] [a, b] b a :=
    gstep_symmetric [⟨a, b, blk⟩] [a, b] hstep
  intro u hu v hv
  rcases List.mem_cons.mp hu with rfl | hu'
  · rcases List.mem_cons.mp hv with rfl | hv'
    · exact Relation.ReflTransGen.refl
    · rw [List.mem_singleton] at hv'
      subst hv'
      exact Relation.ReflTransGen.single hstep
  · rw [List.mem_singleton] at hu'
    subst hu'
    rcases List.mem_cons.mp hv with rfl | hv'
    · exact Relation.ReflTransGen.single hstep'
    · rw [List.mem_singleton] at hv'
      subst hv'
      exact Relation.ReflTransGen.refl

/-- C4 counterexample to the claimed rule order: in this graph the second
edge is a self-loop (rule 3) while the first edge merely references the
undeclared node `"c"` (rule 4); checking "the rules in order with the
first failure winning" would report the self-loop, but the validator
checks rules 3-5 per edge and reports the first edge's undeclared
destination instead. -/
theorem validate_graph_rule_order_cex :
    validate_graph (some ⟨["a", "b"], [⟨"a", "c", 1⟩, ⟨"b", "b", 2⟩]⟩) =
      Except.error (GraphError.destinationNotNode "c") ∧
    validate_graph (some ⟨["a", "b"], [⟨"a", "c", 1⟩, ⟨"b", "b", 2⟩]⟩) ≠
      Except.error GraphError.selfLoop := by
  constructor
  · rfl
  · intro h
    rw [show validate_graph (some ⟨["a", "b"], [⟨"a", "c", 1⟩, ⟨"b", "b", 2⟩]⟩) =
      Except.error (GraphError.destinationNotNode "c") from rfl] at h
    cases h

/-- C4 (amended): `_validate_graph` fails exactly when the subgraph is
missing, has zero nodes, has a duplicate node id, has a self-loop edge,
has an edge endpoint that is not a declared node, has two edges sharing
the `(source, destination, effective_block_number)` triple, or is not a
single weakly-connected component; rules 1 and 2 are checked first, but
rules 3-5 are checked per edge in submission order (self-loop, then
endpoints, then duplicate triple) rather than rule-by-rule globally, and
rule 6 last. It accepts every minimal 2-node, 1-edge graph. -/
theorem validate_graph_fails_iff :
    (∀ og : Option Subgraph,
      validate_graph og ≠ Except.ok () ↔
        (og = none ∨ ∃ g, og = some g ∧
          (g.nodes = [] ∨ ¬g.nodes.Nodup ∨
           (∃ e ∈ g.edges, e.coldkey_source = e.coldkey_destination) ∨
           (∃ e ∈ g.edges, e.coldkey_source ∉ g.nodes ∨
             e.coldkey_destination ∉ g.nodes) ∨
           ¬(g.edges.map edgeTriple).Nodup ∨
           ¬WeaklyConnected g.nodes g.edges))) ∧
    (∀ (a b : String) (blk : Int), a ≠ b →
      validate_graph (some ⟨[a, b], [⟨a, b, blk⟩]⟩) = Except.ok ()) := by
  constructor
  · intro og
    cases og with
    | none => simp [validate_graph]
    | some g =>
      rw [ne_eq, not_congr (validate_graph_some_ok_iff g), not_graphOkConditions_iff]
      simp only [Option.some.injEq, reduceCtorEq, false_or]
      constructor
      · intro h
        exact ⟨g, rfl, h⟩
      · rintro ⟨g', hg', h⟩
        cases hg'
        exact h
  · intro a b blk hab
    rw [validate_graph_some_ok_iff]
    refine ⟨by simp, by simp [hab], ?_, by simp, weaklyConnected_pair a b blk⟩
    intro e he
    rw [List.mem_singleton] at he
    subst he
    exact ⟨hab, List.mem_cons_self a [b],
      List.mem_cons_of_mem a (List.mem_singleton_self b)⟩

/-- Witness for C4's amended theorem: a concrete minimal 2-node, 1-edge
graph is accepted, and a concrete disconnected graph is rejected. -/
theorem validate_graph_fails_iff_witness :
    validate_graph (some ⟨["x", "y"], [⟨"x", "y", 5⟩]⟩) = Except.ok () ∧
    validate_graph (some ⟨["x", "x"], []⟩) ≠ Except.ok () :=
  ⟨validate_graph_fails_iff.2 "x" "y" 5 (by decide),
   (validate_graph_fails_iff.1 (some ⟨["x", "x"], []⟩)).mpr
     (Or.inr ⟨⟨["x", "x"], []⟩, rfl, Or.inr (Or.inl (by decide))⟩)⟩

/-! ### Claim C5 -/

theorem c5_contains_iff (l : List String) (a : String) : l.contains a = true ↔ a ∈ l := by
  simp [List.contains, List.elem_iff]

theorem chain_validation_ok_iff {E : Type} (owner : Int → Except E String)
    (block : Int) (expected : String) :
    chain_validation owner block expected = Except.ok () ↔
      owner block = Except.ok expected := by
  cases h : owner block with
  | error e => simp [chain_validation, h]
  | ok actual =>
    simp only [chain_validation, h]
    by_cases ha : actual = expected
    · subst ha
      simp
    · rw [if_pos ha]
      simp [ha]

theorem seq_ok_iff {ε : Type} (x : Except ε Unit) (y : Except ε Unit) :
    (x >>= fun _ => y) = Except.ok () ↔
      x = Except.ok () ∧ y = Except.ok () := by
  cases x with
  | error e => simp [Bind.bind, Except.bind]
  | ok a => cases a; simp [Bind.bind, Except.bind]

theorem seq_err {ε : Type} (x : Except ε Unit) (y : Except ε Unit) (e : ε)
    (h : x = Except.error e) : (x >>= fun _ => y) = Except.error e := by
  rw [h]; rfl

theorem seq_ok_left {ε : Type} (x : Except ε Unit) (y : Except ε Unit)
    (h : x = Except.ok ()) : (x >>= fun _ => y) = y := by
  rw [h]; rfl

theorem validate_edges_ok_iff {E : Type} (owner : Int → Except E String)
    (edges : List GraphEdge) :
    validate_edges owner edges = Except.ok () ↔
      ∀ e ∈ edges,
        owner (e.effective_block_number - 1) = Except.ok e.coldkey_source ∧
        owner (e.effective_block_number + 1) = Except.ok e.coldkey_destination := by
  induction edges with
  | nil => simp [validate_edges]
  | cons e rest ih =>
    rw [validate_edges]
    show (chain_validation owner (e.effective_block_number - 1) e.coldkey_source >>= fun _ =>
      chain_validation owner (e.effective_block_number + 1) e.coldkey_destination >>= fun _ =>
      validate_edges owner rest) = Except.ok () ↔ _
    rw [seq_ok_iff, seq_ok_iff, ih, chain_validation_ok_iff, chain_validation_ok_iff]
    constructor
    · rintro ⟨h1, h2, h3⟩
      intro e' he'
      rcases List.mem_cons.mp he' with rfl | hm
      · exact ⟨h1, h2⟩
      · exact h3 e' hm
    · intro h
      exact ⟨(h e (List.mem_cons_self e rest)).1, (h e (List.mem_cons_self e rest)).2,
        fun e' he' => h e' (List.mem_cons_of_mem e he')⟩

theorem validate_start_end_ok_iff {E : Type} (owner : Int → Except E String)
    (nodes : List String) (max_block_number : Int) :
    validate_start_end_ownership owner nodes max_block_number = Except.ok () ↔
      (∃ s, owner LOWER_BLOCK_LIMIT = Except.ok s ∧ s ∈ nodes) ∧
      (∃ t, owner max_block_number = Except.ok t ∧ t ∈ nodes) := by
  cases h1 : owner LOWER_BLOCK_LIMIT with
  | error e => simp [validate_start_end_ownership, h1]
  | ok s =>
    cases h2 : owner max_block_number with
    | error e => simp [validate_start_end_ownership, h1, h2]
    | ok t =>
      simp only [validate_start_end_ownership, h1, h2]
      by_cases hs : nodes.contains s
      · rw [if_neg (by rw [hs]; simp)]
        by_cases ht : nodes.contains t
        · rw [if_neg (by rw [ht]; simp)]
          constructor
          · intro _
            exact ⟨⟨s, rfl, (c5_contains_iff nodes s).mp hs⟩,
              ⟨t, rfl, (c5_contains_iff nodes t).mp ht⟩⟩
          · intro _
            rfl
        · rw [if_pos (by rw [Bool.not_eq_true] at ht; rw [ht]; rfl)]
          constructor
          · intro hh; cases hh
          · rintro ⟨-, ⟨t', ht', htm⟩⟩
            cases ht'
            exact absurd ((c5_contains_iff nodes _).mpr htm) ht
      · rw [if_pos (by rw [Bool.not_eq_true] at hs; rw [hs]; rfl)]
        constructor
        · intro hh; cases hh
        · rintro ⟨⟨s', hs', hsm⟩, -⟩
          cases hs'
          exact absurd ((c5_contains_iff nodes _).mpr hsm) hs



theorem chain_validation_err {E : Type} (owner : Int → Except E String)
    (block : Int) (expected a : String)
    (h : owner block = Except.ok a) (ha : a ≠ expected) :
    chain_validation owner block expected =
      Except.error (.ownerMismatch expected a block) := by
  simp only [chain_validation, h]
  rw [if_pos ha]

theorem validate_edges_append_ok {E : Type} (owner : Int → Except E String)
    (pre : List GraphEdge) :
    ∀ rest : List GraphEdge,
    (∀ e' ∈ pre,
      owner (e'.effective_block_number - 1) = Except.ok e'.coldkey_source ∧
      owner (e'.effective_block_number + 1) = Except.ok e'.coldkey_destination) →
    validate_edges owner (pre ++ rest) = validate_edges owner rest := by
  induction pre with
  | nil => intro rest _; rfl
  | cons p pre' ih =>
    intro rest h
    rw [List.cons_append, validate_edges]
    show (chain_validation owner (p.effective_block_number - 1) p.coldkey_source >>= fun _ =>
      chain_validation owner (p.effective_block_number + 1) p.coldkey_destination >>= fun _ =>
      validate_edges owner (pre' ++ rest)) = _
    rw [seq_ok_left _ _ ((chain_validation_ok_iff owner _ _).mpr
      (h p (List.mem_cons_self p pre')).1)]
    rw [seq_ok_left _ _ ((chain_validation_ok_iff owner _ _).mpr
      (h p (List.mem_cons_self p pre')).2)]
    exact ih rest (fun e' he' => h e' (List.mem_cons_of_mem p he'))

theorem verify_ownership_bind {E : Type} (owner : Int → Except E String)
    (nodes : List String) (edges : List GraphEdge) (maxB : Int) :
    verify_ownership owner nodes edges maxB =
      (validate_start_end_ownership owner nodes maxB >>= fun _ =>
        validate_edges owner edges) := rfl

/-- C5: `verify` (boundary check then per-edge checks) succeeds exactly
when the ground-truth owners at `LOWER_BLOCK_LIMIT` and at the upper
block limit are both among the submitted nodes and, for every edge at
block `b`, the ground-truth owner at `b-1` is the edge source and at
`b+1` the edge destination — all with the underlying queries succeeding;
and when the boundary check passes, earlier edges check out and a single
owner query returns a mismatching owner, verification fails with the
`ValidationException` naming the expected owner, the actual owner and the
queried block number. A failing query likewise fails the whole
verification (by the first conjunct), propagating the chain reader's own
error. -/
theorem verify_ownership_characterization :
    (∀ (E : Type) (owner : Int → Except E String) (nodes : List String)
        (edges : List GraphEdge) (maxB : Int),
      verify_ownership owner nodes edges maxB = Except.ok () ↔
        ((∃ s, owner LOWER_BLOCK_LIMIT = Except.ok s ∧ s ∈ nodes) ∧
         (∃ t, owner maxB = Except.ok t ∧ t ∈ nodes) ∧
         ∀ e ∈ edges,
           owner (e.effective_block_number - 1) = Except.ok e.coldkey_source ∧
           owner (e.effective_block_number + 1) = Except.ok e.coldkey_destination)) ∧
    (∀ (E : Type) (owner : Int → Except E String) (nodes : List String)
        (edges pre post : List GraphEdge) (e : GraphEdge) (maxB : Int) (a : String),
      validate_start_end_ownership owner nodes maxB = Except.ok () →
      edges = pre ++ e :: post →
      (∀ e' ∈ pre,
        owner (e'.effective_block_number - 1) = Except.ok e'.coldkey_source ∧
        owner (e'.effective_block_number + 1) = Except.ok e'.coldkey_destination) →
      owner (e.effective_block_number - 1) = Except.ok a →
      a ≠ e.coldkey_source →
      verify_ownership owner nodes edges maxB =
        Except.error (.ownerMismatch e.coldkey_source a
          (e.effective_block_number - 1))) ∧
    (∀ (E : Type) (owner : Int → Except E String) (nodes : List String)
        (edges pre post : List GraphEdge) (e : GraphEdge) (maxB : Int) (a : String),
      validate_start_end_ownership owner nodes maxB = Except.ok () →
      edges = pre ++ e :: post →
      (∀ e' ∈ pre,
        owner (e'.effective_block_number - 1) = Except.ok e'.coldkey_source ∧
        owner (e'.effective_block_number + 1) = Except.ok e'.coldkey_destination) →
      owner (e.effective_block_number - 1) = Except.ok e.coldkey_source →
      owner (e.effective_block_number + 1) = Except.ok a →
      a ≠ e.coldkey_destination →
      verify_ownership owner nodes edges maxB =
        Except.error (.ownerMismatch e.coldkey_destination a
          (e.effective_block_number + 1))) := by
  refine ⟨?_, ?_, ?_⟩
  · intro E owner nodes edges maxB
    rw [verify_ownership_bind, seq_ok_iff, validate_start_end_ok_iff,
      validate_edges_ok_iff, and_assoc]
  · intro E owner nodes edges pre post e maxB a hbound hsplit hpre hq hne
    subst hsplit
    rw [verify_ownership_bind, seq_ok_left _ _ hbound,
      validate_edges_append_ok owner pre (e :: post) hpre, validate_edges]
    show (chain_validation owner (e.effective_block_number - 1) e.coldkey_source >>= fun _ =>
      chain_validation owner (e.effective_block_number + 1) e.coldkey_destination >>= fun _ =>
      validate_edges owner post) = _
    rw [seq_err _ _ _ (chain_validation_err owner _ _ a hq hne)]
  · intro E owner nodes edges pre post e maxB a hbound hsplit hpre hq1 hq2 hne
    subst hsplit
    rw [verify_ownership_bind, seq_ok_left _ _ hbound,
      validate_edges_append_ok owner pre (e :: post) hpre, validate_edges]
    show (chain_validation owner (e.effective_block_number - 1) e.coldkey_source >>= fun _ =>
      chain_validation owner (e.effective_block_number + 1) e.coldkey_destination >>= fun _ =>
      validate_edges owner post) = _
    rw [seq_ok_left _ _ ((chain_validation_ok_iff owner _ _).mpr hq1)]
    rw [seq_err _ _ _ (chain_validation_err owner _ _ a hq2 hne)]

/-- Witness for C5: the sample oracle accepts the 2-node graph with edge
`n1 → n2` at block 10, and with a corrupted owner at block 9 verification
fails naming expected `n1`, actual `zz`, block 9. -/
theorem verify_ownership_characterization_witness :
    verify_ownership sampleOwnerFn ["n1", "n2"] [⟨"n1", "n2", 10⟩] 20 =
      Except.ok () ∧
    verify_ownership sampleOwnerFnBad ["n1", "n2"] [⟨"n1", "n2", 10⟩] 20 =
      Except.error (.ownerMismatch "n1" "zz" 9) :=
  ⟨(verify_ownership_characterization.1 String sampleOwnerFn ["n1", "n2"]
      [⟨"n1", "n2", 10⟩] 20).mpr
    ⟨⟨"n1", rfl, by decide⟩, ⟨"n2", rfl, by decide⟩,
      fun e he => by
        rw [List.mem_singleton] at he
        subst he
        exact ⟨rfl, rfl⟩⟩,
   verify_ownership_characterization.2.1 String sampleOwnerFnBad ["n1", "n2"]
      [⟨"n1", "n2", 10⟩] [] [] ⟨"n1", "n2", 10⟩ 20 "zz" rfl rfl
      (fun e' he' => absurd he' (List.not_mem_nil e')) rfl (by decide)⟩

/-! ### Claims C6 and C10 -/

/-- C6: every execution persists exactly one MinerScore — the repository
gains exactly the returned score, whatever the dashboard client does; on
a validation failure the score is zero-valued, not passed, and carries
the failure message and the measured response time; on a miner task
failure it is zero-valued with response time 0; and the outcome is
bit-identical whether the dashboard is absent, succeeds or fails. -/
theorem execute_challenge_characterization :
    (∀ (scoringFn : ℚ → ℚ × ℚ) (uid : Nat) (hotkey coldkey : String)
        (previous : List ℚ) (minerResult : Except String ℚ)
        (validationOutcome : Except String Unit) (repo : List (MinerScore ℚ))
        (dashboard : Option (MinerScore ℚ → Except String Unit)),
      execute_challenge scoringFn uid hotkey coldkey previous minerResult
          validationOutcome repo dashboard =
        (repo ++ [challenge_score scoringFn uid hotkey coldkey previous
            minerResult validationOutcome],
         challenge_score scoringFn uid hotkey coldkey previous minerResult
            validationOutcome)) ∧
    (∀ (scoringFn : ℚ → ℚ × ℚ) (uid : Nat) (hotkey coldkey : String)
        (previous : List ℚ) (t : ℚ) (msg : String),
      (challenge_score scoringFn uid hotkey coldkey previous (.ok t)
          (.error msg)).overall_score = 0 ∧
      (challenge_score scoringFn uid hotkey coldkey previous (.ok t)
          (.error msg)).validation_passed = false ∧
      (challenge_score scoringFn uid hotkey coldkey previous (.ok t)
          (.error msg)).error_message = some msg ∧
      (challenge_score scoringFn uid hotkey coldkey previous (.ok t)
          (.error msg)).response_time_seconds = t) ∧
    (∀ (scoringFn : ℚ → ℚ × ℚ) (uid : Nat) (hotkey coldkey : String)
        (previous : List ℚ) (msg : String)
        (validationOutcome : Except String Unit),
      (challenge_score scoringFn uid hotkey coldkey previous (.error msg)
          validationOutcome).overall_score = 0 ∧
      (challenge_score scoringFn uid hotkey coldkey previous (.error msg)
          validationOutcome).validation_passed = false ∧
      (challenge_score scoringFn uid hotkey coldkey previous (.error msg)
          validationOutcome).error_message = some msg ∧
      (challenge_score scoringFn uid hotkey coldkey previous (.error msg)
          validationOutcome).response_time_seconds = 0) ∧
    (∀ (scoringFn : ℚ → ℚ × ℚ) (uid : Nat) (hotkey coldkey : String)
        (previous : List ℚ) (minerResult : Except String ℚ)
        (validationOutcome : Except String Unit) (repo : List (MinerScore ℚ))
        (dashboard : Option (MinerScore ℚ → Except String Unit)),
      execute_challenge scoringFn uid hotkey coldkey previous minerResult
          validationOutcome repo dashboard =
        execute_challenge scoringFn uid hotkey coldkey previous minerResult
          validationOutcome repo none) := by
  have hmain : ∀ (scoringFn : ℚ → ℚ × ℚ) (uid : Nat) (hotkey coldkey : String)
      (previous : List ℚ) (minerResult : Except String ℚ)
      (validationOutcome : Except String Unit) (repo : List (MinerScore ℚ))
      (dashboard : Option (MinerScore ℚ → Except String Unit)),
      execute_challenge scoringFn uid hotkey coldkey previous minerResult
          validationOutcome repo dashboard =
        (repo ++ [challenge_score scoringFn uid hotkey coldkey previous
            minerResult validationOutcome],
         challenge_score scoringFn uid hotkey coldkey previous minerResult
            validationOutcome) := by
    intro scoringFn uid hotkey coldkey previous minerResult validationOutcome repo dashboard
    cases dashboard with
    | none => rfl
    | some send =>
      show (match send (challenge_score scoringFn uid hotkey coldkey previous
          minerResult validationOutcome) with
        | .ok () => _
        | .error _ => _) = _
      cases send (challenge_score scoringFn uid hotkey coldkey previous
          minerResult validationOutcome) with
      | ok u => cases u; rfl
      | error e => rfl
  refine ⟨hmain, ?_, ?_, ?_⟩
  · intro scoringFn uid hotkey coldkey previous t msg
    exact ⟨rfl, rfl, rfl, rfl⟩
  · intro scoringFn uid hotkey coldkey previous msg validationOutcome
    exact ⟨rfl, rfl, rfl, rfl⟩
  · intro scoringFn uid hotkey coldkey previous minerResult validationOutcome repo dashboard
    rw [hmain, hmain]

/-! ### Claim C10 -/

/-- C10 counterexample: the volume policy's zero-score path sets
`novelty_score` to `None`, not 0. -/
theorem coldkey_novelty_none_cex :
    (coldkey_calculate_zero_score 20 1 "ck" "hk" "err" []).novelty_score =
      none ∧
    (none : Option ℝ) ≠ some 0 :=
  ⟨rfl, by simp⟩

/-- C10 (amended): scores from the pass/fail (hotkey-ownership) policy
carry `novelty_score = 0`, but every score from the volume policy —
success, failed validation, or zero score — carries `novelty_score =
None`. -/
theorem novelty_score_characterization :
    (∀ (uid : Nat) (hotkey coldkey : String) (previous : List ℚ) (t : ℚ)
        (msg : String),
      (hotkey_calculate_zero_score uid hotkey coldkey previous t
        msg).novelty_score = some 0) ∧
    (∀ (uid : Nat) (hotkey coldkey : String) (previous : List ℚ)
        (scoringFn : ℚ → ℚ × ℚ) (t : ℚ),
      (hotkey_calculate_score uid hotkey coldkey previous scoringFn
        t).novelty_score = some 0) ∧
    (∀ (d uid : Nat) (coldkey hotkey : String) (vr : ValidationResult)
        (t : ℝ) (previous : List ℝ),
      (coldkey_calculate_score d uid coldkey hotkey vr t
        previous).novelty_score = none) ∧
    (∀ (d uid : Nat) (coldkey hotkey msg : String) (previous : List ℝ),
      (coldkey_calculate_zero_score d uid coldkey hotkey msg
        previous).novelty_score = none) := by
  refine ⟨fun _ _ _ _ _ _ => rfl, fun _ _ _ _ _ _ => rfl, ?_, fun _ _ _ _ _ _ => rfl⟩
  intro d uid coldkey hotkey vr t previous
  unfold coldkey_calculate_score
  split <;> rfl



theorem insertDesc_length {α : Type} [LinearOrder α] (x : α) (l : List α) :
    (insertDesc x l).length = l.length + 1 := by
  induction l with
  | nil => rfl
  | cons y rest ih =>
    rw [insertDesc]
    split
    · simp
    · simp [ih]

theorem sortDesc_length {α : Type} [LinearOrder α] (l : List α) :
    (sortDesc l).length = l.length := by
  induction l with
  | nil => rfl
  | cons x rest ih => rw [sortDesc, insertDesc_length, ih, List.length_cons]

theorem insertDesc_perm {α : Type} [LinearOrder α] (x : α) (l : List α) :
    (insertDesc x l).Perm (x :: l) := by
  induction l with
  | nil => exact List.Perm.refl _
  | cons y rest ih =>
    rw [insertDesc]
    split
    · exact List.Perm.refl _
    · exact ((ih.cons y).trans (List.Perm.swap x y rest))

theorem sortDesc_perm {α : Type} [LinearOrder α] (l : List α) :
    (sortDesc l).Perm l := by
  induction l with
  | nil => exact List.Perm.refl _
  | cons x rest ih => exact (insertDesc_perm x (sortDesc rest)).trans (ih.cons x)

theorem sortDesc_sum (l : List ℚ) : (sortDesc l).sum = l.sum :=
  (sortDesc_perm l).sum_eq

/-! ### Claim C7 -/

/-- C7 counterexample: for a miner with no prior scores the collected
window holds one value; the code averages that single value (take the top
18 of 1), while the claimed "drop the lowest 2 and average the remainder"
would average an empty list. -/
theorem coldkey_moving_average_cex :
    coldkey_moving_average 20 ([] : List ℚ) 1 = 1 ∧
    spec_drop2_average ([] : List ℚ) 1 = 0 ∧ (1 : ℚ) ≠ 0 := by
  refine ⟨?_, ?_, by norm_num⟩
  · norm_num [coldkey_moving_average, NUMBER_OF_LOW_SCORES_TO_DISCARD,
      sortDesc, insertDesc]
  · norm_num [spec_drop2_average, sortDesc, insertDesc]

/-- C7 (amended): the moving average takes the greatest `min(k, N-2)` of
the `k ≤ N` collected values (up to `N-1` priors plus the new score,
sorted descending) and averages them. With a full window (19 priors, so
k = N = 20 under the default denominator) this is exactly "drop the
lowest 2, average the remaining 18"; with `k ≤ 18` nothing is dropped
and all `k` values are averaged; and on the claim's concrete example —
priors `[0.9]*17 ++ [0.1, 0.1]` and new score `0.95` — the result is
`(0.9*17 + 0.95)/18`. -/
theorem coldkey_moving_average_characterization :
    (∀ (previous : List ℚ) (new : ℚ), previous.length = 19 →
      coldkey_moving_average 20 previous new = spec_drop2_average previous new) ∧
    (∀ (previous : List ℚ) (new : ℚ), previous.length + 1 ≤ 18 →
      coldkey_moving_average 20 previous new =
        (previous.sum + new) / ((previous.length : ℚ) + 1)) ∧
    coldkey_moving_average 20
        (List.replicate 17 (9 / 10 : ℚ) ++ [1 / 10, 1 / 10]) (95 / 100) =
      (9 / 10 * 17 + 95 / 100) / 18 := by
  refine ⟨?_, ?_, ?_⟩
  · intro previous new h
    have hlen : (sortDesc (previous ++ [new])).length = 20 := by
      rw [sortDesc_length, List.length_append, h]
      rfl
    simp only [coldkey_moving_average, spec_drop2_average,
      NUMBER_OF_LOW_SCORES_TO_DISCARD, hlen]
  · intro previous new h
    have hlen : (sortDesc (previous ++ [new])).length = previous.length + 1 := by
      rw [sortDesc_length, List.length_append]
      rfl
    have htake : List.take (20 - 2) (sortDesc (previous ++ [new])) =
        sortDesc (previous ++ [new]) := by
      apply List.take_of_length_le
      rw [hlen]
      omega
    simp only [coldkey_moving_average, NUMBER_OF_LOW_SCORES_TO_DISCARD]
    rw [htake, sortDesc_sum, hlen, List.sum_append, List.sum_singleton]
    push_cast
    ring_nf
  · norm_num [coldkey_moving_average, NUMBER_OF_LOW_SCORES_TO_DISCARD,
      sortDesc, insertDesc, List.replicate]

/-- Witness for C7's amended theorem: the full-window case at the claim's
own example inputs, and the short-window case for a single prior score. -/
theorem coldkey_moving_average_characterization_witness :
    coldkey_moving_average 20
        (List.replicate 17 (9 / 10 : ℚ) ++ [1 / 10, 1 / 10]) (95 / 100) =
      spec_drop2_average
        (List.replicate 17 (9 / 10 : ℚ) ++ [1 / 10, 1 / 10]) (95 / 100) ∧
    coldkey_moving_average 20 ([1 / 2] : List ℚ) 1 =
      ((([1 / 2] : List ℚ).sum + 1) / ((([1 / 2] : List ℚ).length : ℚ) + 1)) :=
  ⟨coldkey_moving_average_characterization.1
      (List.replicate 17 (9 / 10 : ℚ) ++ [1 / 10, 1 / 10]) (95 / 100) (by simp),
   coldkey_moving_average_characterization.2.1 [1 / 2] 1 (by simp)⟩



theorem pyMin_le (l : List ℚ) : ∀ v ∈ l, pyMin l ≤ v := by
  induction l with
  | nil => intro v hv; cases hv
  | cons x rest ih =>
    intro v hv
    cases rest with
    | nil =>
      rw [List.mem_singleton] at hv
      subst hv
      exact le_refl _
    | cons y t =>
      rw [pyMin]
      rcases List.mem_cons.mp hv with rfl | hm
      · exact min_le_left _ _
      · exact le_trans (min_le_right _ _) (ih v hm)

theorem le_pyMax (l : List ℚ) : ∀ v ∈ l, v ≤ pyMax l := by
  induction l with
  | nil => intro v hv; cases hv
  | cons x rest ih =>
    intro v hv
    cases rest with
    | nil =>
      rw [List.mem_singleton] at hv
      subst hv
      exact le_refl _
    | cons y t =>
      rw [pyMax]
      rcases List.mem_cons.mp hv with rfl | hm
      · exact le_max_left _ _
      · exact le_trans (ih v hm) (le_max_right _ _)

theorem round6_eq (q : ℚ) :
    round6 q =
      ((if q * 1000000 - (⌊q * 1000000⌋ : ℚ) > 1 / 2 then ⌊q * 1000000⌋ + 1
        else if q * 1000000 - (⌊q * 1000000⌋ : ℚ) < 1 / 2 then ⌊q * 1000000⌋
        else if ⌊q * 1000000⌋ % 2 = 0 then ⌊q * 1000000⌋
        else ⌊q * 1000000⌋ + 1 : ℤ) : ℚ) / 1000000 := rfl

theorem round6_nonneg_le_one (q : ℚ) (h0 : 0 ≤ q) (h1 : q ≤ 1) :
    0 ≤ round6 q ∧ round6 q ≤ 1 := by
  rw [round6_eq]
  have hs0 : (0 : ℚ) ≤ q * 1000000 := by positivity
  have hs1 : q * 1000000 ≤ 1000000 := by nlinarith
  have hfl0 : (0 : ℤ) ≤ ⌊q * 1000000⌋ := Int.floor_nonneg.mpr hs0
  have hfl_le : (⌊q * 1000000⌋ : ℚ) ≤ q * 1000000 := Int.floor_le _
  have hup : ⌊q * 1000000⌋ ≤ 1000000 := by
    have h := Int.floor_le_floor hs1
    simpa using h
  have c0 : (0 : ℚ) ≤ (⌊q * 1000000⌋ : ℚ) := by exact_mod_cast hfl0
  have cup : (⌊q * 1000000⌋ : ℚ) ≤ 1000000 := by exact_mod_cast hup
  have hlt : (⌊q * 1000000⌋ : ℚ) < q * 1000000 →
      ((⌊q * 1000000⌋ : ℚ) + 1) ≤ 1000000 := by
    intro hstrict
    have h2 : (⌊q * 1000000⌋ : ℚ) < 1000000 := lt_of_lt_of_le hstrict hs1
    have h3 : ⌊q * 1000000⌋ < 1000000 := by exact_mod_cast h2
    have h4 : ⌊q * 1000000⌋ + 1 ≤ 1000000 := by omega
    exact_mod_cast h4
  split_ifs with hgt hlt2 hpar
  · refine ⟨div_nonneg (by push_cast; linarith) (by norm_num), ?_⟩
    rw [div_le_one (by norm_num)]
    have h' := hlt (by linarith)
    push_cast
    linarith
  · refine ⟨div_nonneg c0 (by norm_num), ?_⟩
    rw [div_le_one (by norm_num)]
    linarith
  · refine ⟨div_nonneg c0 (by norm_num), ?_⟩
    rw [div_le_one (by norm_num)]
    linarith
  · refine ⟨div_nonneg (by push_cast; linarith) (by norm_num), ?_⟩
    rw [div_le_one (by norm_num)]
    have hfr : q * 1000000 - (⌊q * 1000000⌋ : ℚ) = 1 / 2 :=
      le_antisymm (not_lt.mp hgt) (not_lt.mp hlt2)
    have h' := hlt (by linarith)
    push_cast
    linarith

/-! ### Claim C8 -/

/-- C8 counterexample: on an input with no spread, `normalize_scores`
returns a plain list `[1.0, 1.0]`, not a map-shaped container. -/
theorem normalize_scores_container_cex :
    normalize_scores [(1, 5), (2, 5)] = NormalizeResult.list [1, 1] ∧
    normalize_scores [(1, 5), (2, 5)] ≠
      NormalizeResult.dict [(1, 1), (2, 1)] := by
  have h : normalize_scores [(1, 5), (2, 5)] = NormalizeResult.list [1, 1] := by
    rw [normalize_scores, if_neg (by simp)]
    norm_num [pyMin, pyMax, List.replicate]
  refine ⟨h, ?_⟩
  rw [h]
  intro hc
  cases hc

/-- C8 (amended): for a nonempty input with spread, `normalize_scores`
returns a dict mapping each id to its min-max-normalized score rounded
to 6 decimals, every value lying in `[0, 1]`, and
`normalize_scores {1: 10, 2: 20, 3: 30} = {1: 0.0, 2: 0.5, 3: 1.0}`;
but when all input scores are equal the degenerate branch returns a
*list* `[1.0] * len(scores)` — a different container shape than the
normal branch. -/
theorem normalize_scores_characterization :
    normalize_scores [(1, 10), (2, 20), (3, 30)] =
      NormalizeResult.dict [(1, 0), (2, 1 / 2), (3, 1)] ∧
    (∀ scores : List (Int × ℚ), scores ≠ [] →
      pyMin (scores.map (fun p => p.2)) = pyMax (scores.map (fun p => p.2)) →
      normalize_scores scores = .list (List.replicate scores.length 1)) ∧
    (∀ scores : List (Int × ℚ), scores ≠ [] →
      pyMin (scores.map (fun p => p.2)) ≠ pyMax (scores.map (fun p => p.2)) →
      normalize_scores scores = .dict (scores.map (fun p => (p.1,
        round6 ((p.2 - pyMin (scores.map (fun q => q.2))) /
          (pyMax (scores.map (fun q => q.2)) -
            pyMin (scores.map (fun q => q.2))))))) ∧
      ∀ p ∈ scores,
        0 ≤ round6 ((p.2 - pyMin (scores.map (fun q => q.2))) /
          (pyMax (scores.map (fun q => q.2)) -
            pyMin (scores.map (fun q => q.2)))) ∧
        round6 ((p.2 - pyMin (scores.map (fun q => q.2))) /
          (pyMax (scores.map (fun q => q.2)) -
            pyMin (scores.map (fun q => q.2)))) ≤ 1) := by
  refine ⟨?_, ?_, ?_⟩
  · rw [normalize_scores, if_neg (by simp)]
    simp only []
    rw [if_neg (by norm_num [pyMin, pyMax])]
    norm_num [pyMin, pyMax, round6_eq]
  · intro scores hne heq
    rw [normalize_scores, if_neg hne]
    simp only []
    rw [if_pos heq]
  · intro scores hne hneq
    have hminmax : pyMin (scores.map (fun p => p.2)) <
        pyMax (scores.map (fun p => p.2)) := by
      apply lt_of_le_of_ne _ hneq
      obtain ⟨p, ps, rfl⟩ := List.exists_cons_of_ne_nil hne
      calc pyMin ((p :: ps).map (fun p => p.2)) ≤ p.2 :=
          pyMin_le _ p.2 (by simp)
        _ ≤ pyMax ((p :: ps).map (fun p => p.2)) := le_pyMax _ p.2 (by simp)
    constructor
    · rw [normalize_scores, if_neg hne]
      simp only []
      rw [if_neg hneq]
    · intro p hp
      have hmem : p.2 ∈ scores.map (fun q => q.2) :=
        List.mem_map_of_mem (fun q => q.2) hp
      have hlo := pyMin_le _ p.2 hmem
      have hhi := le_pyMax _ p.2 hmem
      apply round6_nonneg_le_one
      · apply div_nonneg (by linarith) (by linarith)
      · rw [div_le_one (by linarith)]
        linarith

/-- Witness for C8's amended theorem: the all-equal input `{1: 5, 2: 5}`
takes the degenerate list branch, and `{1: 10, 2: 20, 3: 30}` takes the
dict branch with all values in `[0, 1]`. -/
theorem normalize_scores_characterization_witness :
    normalize_scores nsEqualSample =
      .list (List.replicate nsEqualSample.length 1) ∧
    (normalize_scores nsSpreadSample = .dict (nsSpreadSample.map (fun p => (p.1,
        round6 ((p.2 - pyMin (nsSpreadSample.map (fun q => q.2))) /
          (pyMax (nsSpreadSample.map (fun q => q.2)) -
            pyMin (nsSpreadSample.map (fun q => q.2))))))) ∧
      ∀ p ∈ nsSpreadSample,
        0 ≤ round6 ((p.2 - pyMin (nsSpreadSample.map (fun q => q.2))) /
          (pyMax (nsSpreadSample.map (fun q => q.2)) -
            pyMin (nsSpreadSample.map (fun q => q.2)))) ∧
        round6 ((p.2 - pyMin (nsSpreadSample.map (fun q => q.2))) /
          (pyMax (nsSpreadSample.map (fun q => q.2)) -
            pyMin (nsSpreadSample.map (fun q => q.2)))) ≤ 1) :=
  ⟨normalize_scores_characterization.2.1 nsEqualSample (by simp [nsEqualSample])
      (by norm_num [nsEqualSample, pyMin, pyMax]),
   normalize_scores_characterization.2.2 nsSpreadSample (by simp [nsSpreadSample])
      (by norm_num [nsSpreadSample, pyMin, pyMax])⟩



/-! ### Claim C9 -/

/-- C9: the volume score is the sigmoid
`1/(1 + e^{-steepness·(v − inflectionPoint)})`, strictly increasing in the
volume and equal to 0.5 exactly at the inflection point (1000); the
responsiveness score `halfScore/(t + halfScore)` equals 1 at `t = 0`,
0.5 at `t = halfScoreConstant` (2), and is strictly decreasing for
`t ≥ 0`; and the overall score of a validated result combines them with
the fixed importance weights `0.9·volume + 0.1·responsiveness`. -/
theorem scoring_formulas :
    (∀ v1 v2 : ℤ, v1 < v2 →
      calculate_volume_score v1 < calculate_volume_score v2) ∧
    calculate_volume_score 1000 = 1 / 2 ∧
    calculate_responsiveness_score 0 = 1 ∧
    calculate_responsiveness_score RESPONSE_TIME_HALF_SCORE = 1 / 2 ∧
    (∀ t1 t2 : ℝ, 0 ≤ t1 → t1 < t2 →
      calculate_responsiveness_score t2 < calculate_responsiveness_score t1) ∧
    (∀ (d uid : Nat) (coldkey hotkey : String) (vr : ValidationResult)
        (t : ℝ) (previous : List ℝ), vr.validated = true →
      (coldkey_calculate_score d uid coldkey hotkey vr t
          previous).overall_score =
        9 / 10 * calculate_volume_score vr.volume +
        1 / 10 * calculate_responsiveness_score t) := by
  refine ⟨?_, ?_, ?_, ?_, ?_, ?_⟩
  · intro v1 v2 h
    unfold calculate_volume_score STEEPNESS INFLECTION_POINT
    have hcast : (v1 : ℝ) < (v2 : ℝ) := by exact_mod_cast h
    have hexp : Real.exp (-(5 / 1000) * ((v2 : ℝ) - 1000)) <
        Real.exp (-(5 / 1000) * ((v1 : ℝ) - 1000)) := by
      apply Real.exp_lt_exp.mpr
      nlinarith
    have hpos : (0 : ℝ) < 1 + Real.exp (-(5 / 1000) * ((v2 : ℝ) - 1000)) := by
      positivity
    exact one_div_lt_one_div_of_lt hpos (by linarith)
  · unfold calculate_volume_score STEEPNESS INFLECTION_POINT
    norm_num
  · unfold calculate_responsiveness_score RESPONSE_TIME_HALF_SCORE
    norm_num
  · unfold calculate_responsiveness_score RESPONSE_TIME_HALF_SCORE
    norm_num
  · intro t1 t2 h0 hlt
    unfold calculate_responsiveness_score RESPONSE_TIME_HALF_SCORE
    apply div_lt_div_of_pos_left (by norm_num) (by linarith) (by linarith)
  · intro d uid coldkey hotkey vr t previous hv
    unfold coldkey_calculate_score
    rw [hv]
    simp only [Bool.not_true, Bool.false_eq_true, if_false]
    ring

/-- Witness for C9: concrete instances of the monotonicity statements and
the weighted combination. -/
theorem scoring_formulas_witness :
    calculate_volume_score 5 < calculate_volume_score 7 ∧
    calculate_responsiveness_score 3 < calculate_responsiveness_score 1 ∧
    (coldkey_calculate_score 20 1 "ck" "hk" ⟨true, "", 500⟩ 4
        []).overall_score =
      9 / 10 * calculate_volume_score (500 : ℤ) +
      1 / 10 * calculate_responsiveness_score 4 :=
  ⟨scoring_formulas.1 5 7 (by norm_num),
   scoring_formulas.2.2.2.2.1 1 3 (by norm_num) (by norm_num),
   scoring_formulas.2.2.2.2.2 20 1 "ck" "hk" ⟨true, "", 500⟩ 4 [] rfl⟩

end Patrol
